import Mathlib

/-!
Verification model of `20250916_laserpower_combiner_plotting.py`.

The script is a three-stage batch pipeline:
  * `read_power_instruction_table` — extract a delimited table after the
    marker line "Result table values";
  * `combine_group` — outer-join the tables of one wavelength group on
    the column "power_percentage_values", deduplicate by key and sort;
  * `main` — group files by the `_<digits>.csv` filename pattern, export
    one sheet per non-empty group, and plot one chart per group.

Cells of a table are modelled by `Cell`: a pandas NaN, a numeric value,
or a string.  Numeric values (`Dec`) are exact decimals — an integer
mantissa scaled by a power of ten — since the file format only carries
sign, digits and an optional decimal fraction; value comparison of two
`Dec`s (`Dec.le`, `Dec.eqv`) is by cross-multiplied mantissas, matching
comparison of the Python float values.  A `DataFrame` is a column-name
list plus a row list, each row a cell list aligned with the columns.
-/

/-- Exact decimal number: the value `mant / 10 ^ exp`. -/
structure Dec where
  mant : Int
  exp : Nat
deriving DecidableEq, Repr

/-- Value order on decimals (cross multiplication). -/
def Dec.le (a b : Dec) : Bool :=
  a.mant * (10 : Int) ^ b.exp ≤ b.mant * (10 : Int) ^ a.exp

/-- Value equality on decimals. -/
def Dec.eqv (a b : Dec) : Bool :=
  a.mant * (10 : Int) ^ b.exp = b.mant * (10 : Int) ^ a.exp

def Dec.neg (a : Dec) : Dec := ⟨-a.mant, a.exp⟩

/-- Plain integer as a decimal. -/
def Dec.ofInt (n : Int) : Dec := ⟨n, 0⟩

inductive Cell where
  | nan : Cell
  | num : Dec → Cell
  | str : String → Cell
deriving DecidableEq, Repr

structure DataFrame where
  cols : List String
  rows : List (List Cell)
deriving DecidableEq, Repr

deriving instance DecidableEq for Except

/-- The join key column name used throughout the script. -/
def keyCol : String := "power_percentage_values"

/- ### String primitives

The Python string operations the script uses (`split`, `strip`,
`lower`, `startswith`, `in`) are modelled structurally over the
character list of a string, following Python semantics. -/

/-- Python `s.split(sep)` for a one-character separator:
`"a;;b" ↦ ["a", "", "b"]`, `"" ↦ [""]`. -/
def splitChar (sep : Char) : List Char → List (List Char)
  | [] => [[]]
  | c :: cs =>
    let r := splitChar sep cs
    if c = sep then [] :: r
    else
      match r with
      | [] => [[c]]
      | h :: t => (c :: h) :: t

def strSplit (sep : Char) (s : String) : List String :=
  (splitChar sep s.data).map (fun l => ⟨l⟩)

/-- `as` begins with pattern `p` (character-wise). -/
def listStarts (p : List Char) : List Char → Bool
  | l =>
    match p, l with
    | [], _ => true
    | _ :: _, [] => false
    | a :: as, b :: bs => a = b && listStarts as bs

/-- Python `sub in s` substring test (scan every position). -/
def listContains (sub : List Char) : List Char → Bool
  | [] => listStarts sub []
  | c :: cs => listStarts sub (c :: cs) || listContains sub cs

def containsSub (sub s : String) : Bool :=
  listContains sub.data s.data

def strStarts (p s : String) : Bool :=
  listStarts p.data s.data

/-- Lexicographic (code-point) strict order on character lists, the
order Python uses to compare strings. -/
def listLt : List Char → List Char → Bool
  | [], [] => false
  | [], _ :: _ => true
  | _ :: _, [] => false
  | a :: as, b :: bs => if a < b then true else if b < a then false else listLt as bs

/-- Python `s.strip()` (whitespace at both ends removed). -/
def strTrim (s : String) : String :=
  ⟨((s.data.dropWhile Char.isWhitespace).reverse.dropWhile Char.isWhitespace).reverse⟩

/-- Python `s.lower()` (ASCII case folding suffices for the sentinel). -/
def strLower (s : String) : String :=
  ⟨s.data.map Char.toLower⟩

/-- Index of the first column with the given name (`df.columns.get_loc`);
out of range when the column is absent. -/
def colIdx (df : DataFrame) (c : String) : Nat :=
  (df.cols.findIdx? (fun x => x = c)).getD df.cols.length

def hasCol (df : DataFrame) (c : String) : Bool :=
  df.cols.contains c

/-- The cell of a row in the column of the given index (`NaN` when the
row is too short, which `pd.DataFrame` padding produces). -/
def cellAt (ki : Nat) (r : List Cell) : Cell :=
  r[ki]?.getD Cell.nan

/-- `df.empty`: true when either axis has length zero. -/
def DataFrame.empty (df : DataFrame) : Bool :=
  df.rows.isEmpty || df.cols.isEmpty

/- ### Numeric coercion (`pd.to_numeric`) -/

/-- Value of a digit string. -/
def digitsVal (l : List Char) : Nat :=
  l.foldl (fun n c => n * 10 + (c.toNat - 48)) 0

/-- Unsigned numeric literal: digits with an optional decimal point
(`"10"`, `"2.5"`, `"5."`, `".5"`). -/
def parseUnsigned? (s : String) : Option Dec :=
  match strSplit '.' s with
  | [a] =>
    if a ≠ "" ∧ a.data.all Char.isDigit then some ⟨(digitsVal a.data : Int), 0⟩ else none
  | [a, b] =>
    if (a ≠ "" ∨ b ≠ "") ∧ a.data.all Char.isDigit ∧ b.data.all Char.isDigit then
      some ⟨(digitsVal (a.data ++ b.data) : Int), b.data.length⟩
    else none
  | _ => none

/-- `pd.to_numeric` on one scalar: optional sign before the unsigned
literal, surrounding whitespace ignored. -/
def to_numeric? (s : String) : Option Dec :=
  let t := strTrim s
  if strStarts "-" t then (parseUnsigned? ⟨t.data.drop 1⟩).map Dec.neg
  else if strStarts "+" t then parseUnsigned? ⟨t.data.drop 1⟩
  else parseUnsigned? t

/-- Numeric reading of one cell; `NaN` and already-numeric cells always
convert. -/
def cellToNumeric? : Cell → Option Cell
  | Cell.nan => some Cell.nan
  | Cell.num q => some (Cell.num q)
  | Cell.str s => (to_numeric? s).map Cell.num

/-- Column `j` converts when every cell of it reads as a number. -/
def colParses (df : DataFrame) (j : Nat) : Bool :=
  df.rows.all (fun r => (cellToNumeric? (cellAt j r)).isSome)

/-- The `for col in df.columns: try: df[col] = pd.to_numeric(df[col])`
loop: each fully-numeric column is converted, any other column is left
unchanged. -/
def to_numeric_all (df : DataFrame) : DataFrame :=
  { cols := df.cols,
    rows := df.rows.map (fun r =>
      r.mapIdx (fun j c =>
        if colParses df j then (cellToNumeric? c).getD c else c)) }

/- ### Table extraction (`read_power_instruction_table`) -/

inductive ExtractError where
  | markerNotFound : ExtractError
  | indexError : ExtractError
  | columnMismatch : ExtractError
deriving DecidableEq, Repr

/-- `pd.DataFrame(data, columns=header)`: rows shorter than the widest
one are padded with `NaN`; construction fails when the widest row does
not match the header width (`ValueError: N columns passed...`). -/
def mk_dataframe (data : List (List Cell)) (header : List String) : Option DataFrame :=
  if data.isEmpty then some ⟨header, []⟩
  else
    let k := (data.map List.length).foldl max 0
    if k = header.length then
      some ⟨header, data.map (fun r => r ++ List.replicate (header.length - r.length) Cell.nan)⟩
    else none

/-- `df.rename(columns={"power_instruction": "power_percentage_values"})`. -/
def rename_power (df : DataFrame) : DataFrame :=
  { df with cols := df.cols.map (fun c => if c = "power_instruction" then keyCol else c) }

/-- The terminal boundary of the data region: a line starting (after
strip, lowercased) with "time", or a blank line. -/
def isDataLine (l : String) : Bool :=
  ¬ (strStarts "time" (strLower (strTrim l))) ∧ ¬ (strTrim l = "")

/-- `read_power_instruction_table`, on the file's line list: find the
first line containing "Result table values"; the next line is the
header, split on ";"; following lines are data rows until the terminal
boundary; build the frame, rename the synonym column, coerce columns. -/
def read_power_instruction_table (lines : List String) : Except ExtractError DataFrame :=
  match lines.findIdx? (fun l => containsSub "Result table values" l) with
  | none => Except.error ExtractError.markerNotFound
  | some i =>
    match lines[i + 1]? with
    | none => Except.error ExtractError.indexError
    | some hline =>
      let header := strSplit ';' (strTrim hline)
      let dataLines := (lines.drop (i + 2)).takeWhile isDataLine
      let data := dataLines.map (fun l => (strSplit ';' (strTrim l)).map Cell.str)
      match mk_dataframe data header with
      | none => Except.error ExtractError.columnMismatch
      | some df => Except.ok (to_numeric_all (rename_power df))

/- ### Group merging (`combine_group`) -/

/-- Value order on cells as `sort_values` ranks them: numbers below
strings (a homogeneous key column never mixes them), `NaN` last
(`na_position="last"`). -/
def cellLe : Cell → Cell → Bool
  | Cell.num a, Cell.num b => Dec.le a b
  | Cell.num _, Cell.str _ => true
  | Cell.num _, Cell.nan => true
  | Cell.str _, Cell.num _ => false
  | Cell.str a, Cell.str b => !(listLt b.data a.data)
  | Cell.str _, Cell.nan => true
  | Cell.nan, Cell.nan => true
  | Cell.nan, _ => false

/-- Value equality on cells, as `pd.merge` key matching and
`drop_duplicates` compare them (`NaN` matches `NaN` in both). -/
def cellEqv : Cell → Cell → Bool
  | Cell.nan, Cell.nan => true
  | Cell.num a, Cell.num b => Dec.eqv a b
  | Cell.str a, Cell.str b => a = b
  | _, _ => false

/-- Strict value order on cells. -/
def cellLt (a b : Cell) : Prop :=
  cellLe a b = true ∧ cellEqv a b = false

/-- Row order by the key cell at index `ki`. -/
def RowLe (ki : Nat) (r s : List Cell) : Prop :=
  cellLe (cellAt ki r) (cellAt ki s) = true

instance (ki : Nat) : DecidableRel (RowLe ki) :=
  fun r s => instDecidableEqBool (cellLe (cellAt ki r) (cellAt ki s)) true

/-- `df.sort_values("power_percentage_values")`. -/
def sort_values (df : DataFrame) : DataFrame :=
  { df with rows := df.rows.insertionSort (RowLe (colIdx df keyCol)) }

/-- `df.drop_duplicates(subset=["power_percentage_values"])`: keep the
first row of each key value. -/
def dedupByKey (ki : Nat) : List (List Cell) → List Cell → List (List Cell)
  | [], _ => []
  | r :: rs, seen =>
    if seen.any (fun k => cellEqv (cellAt ki r) k) then dedupByKey ki rs seen
    else r :: dedupByKey ki rs (cellAt ki r :: seen)

def drop_duplicates (df : DataFrame) : DataFrame :=
  { df with rows := dedupByKey (colIdx df keyCol) df.rows [] }

/-- Overlapping non-key column names get pandas suffixes `_x`/`_y`. -/
def colOverlaps (left right : DataFrame) (c : String) : Bool :=
  c ≠ keyCol ∧ left.cols.contains c ∧ right.cols.contains c

/-- `pd.merge(left, right, on="power_percentage_values", how="outer")`:
result columns are the left ones followed by the right non-key ones;
each left row is paired with every key-matching right row (or `NaN`
padded when none matches); right rows whose key matches no left key are
appended with `NaN` in the left non-key columns. -/
def merge_outer (left right : DataFrame) : DataFrame :=
  let L : DataFrame :=
    { left with cols := left.cols.map (fun c => if colOverlaps left right c then c ++ "_x" else c) }
  let R : DataFrame :=
    { right with cols := right.cols.map (fun c => if colOverlaps left right c then c ++ "_y" else c) }
  let li := colIdx L keyCol
  let ri := colIdx R keyCol
  let rColsNoKey := R.cols.eraseIdx ri
  let leftRows := L.rows.flatMap (fun r =>
    let ms := R.rows.filter (fun s => cellEqv (cellAt ri s) (cellAt li r))
    if ms.isEmpty then [r ++ List.replicate rColsNoKey.length Cell.nan]
    else ms.map (fun s => r ++ s.eraseIdx ri))
  let rightOnly := (R.rows.filter (fun s =>
      !(L.rows.any (fun r => cellEqv (cellAt li r) (cellAt ri s))))).map (fun s =>
    ((List.replicate L.cols.length Cell.nan).set li (cellAt ri s)) ++ s.eraseIdx ri)
  { cols := L.cols ++ rColsNoKey, rows := leftRows ++ rightOnly }

inductive MergeError where
  | keyNotFound : MergeError
deriving DecidableEq, Repr

/-- `fname.split("_")[0]` — the date-like label of a file. -/
def date_of (fname : String) : String :=
  (strSplit '_' fname).headD ""

/-- Rename every non-key column of `df` by the `<date>_` label. -/
def rename_by_date (date : String) (df : DataFrame) : DataFrame :=
  { df with cols := df.cols.map (fun c => if c = keyCol then c else date ++ "_" ++ c) }

/-- The merge fold of `combine_group`: `combined` starts as `None` and
each file's renamed table is outer-joined into it; `pd.merge` raises
(`KeyError`) when a frame lacks the key column. -/
def combineFold (acc : Option DataFrame) :
    List (String × DataFrame) → Except MergeError (Option DataFrame)
  | [] => Except.ok acc
  | (fname, df) :: rest =>
    let d := rename_by_date (date_of fname) df
    match acc with
    | none => combineFold (some d) rest
    | some c =>
      if hasCol c keyCol && hasCol d keyCol then combineFold (some (merge_outer c d)) rest
      else Except.error MergeError.keyNotFound

/-- `combine_group`: fold the group's tables by outer merge, then
deduplicate by key and sort ascending by key (both of which raise a
`KeyError` when the key column is absent). -/
def combine_group (dfs_dict : List (String × DataFrame)) : Except MergeError (Option DataFrame) :=
  match combineFold none dfs_dict with
  | Except.error e => Except.error e
  | Except.ok none => Except.ok none
  | Except.ok (some c) =>
    if hasCol c keyCol then Except.ok (some (sort_values (drop_duplicates c)))
    else Except.error MergeError.keyNotFound

/- ### Main workflow (`main`): grouping, export, plotting -/

/-- `re.search(r"_(\d+)\.csv", fname)` starting at one position: an
underscore, one or more digits, then the literal `.csv`.  The regex
backtracking never shortens the greedy `\d+` group (the character after
it must be `.`), so maximal munch is exact. -/
def wlAt : List Char → Option (List Char)
  | '_' :: r =>
    let ds := r.takeWhile Char.isDigit
    if ds ≠ [] ∧ (r.drop ds.length).take 4 = ['.', 'c', 's', 'v'] then some ds else none
  | _ => none

/-- Leftmost regex match: scan every start position. -/
def wlSearch : List Char → Option (List Char)
  | [] => none
  | c :: cs =>
    match wlAt (c :: cs) with
    | some ds => some ds
    | none => wlSearch cs

/-- The wavelength group key of a filename, when
`re.search(r"_(\d+)\.csv", fname)` matches. -/
def wavelength_of_fname (fname : String) : Option String :=
  (wlSearch fname.data).map (fun l => ⟨l⟩)

/-- Extend the ordered group map at key `wl` (dict insertion order:
a new key is appended, an existing key keeps its position). -/
def addToGroup (g : List (String × List (String × DataFrame))) (wl : String)
    (entry : String × DataFrame) : List (String × List (String × DataFrame)) :=
  match g with
  | [] => [(wl, [entry])]
  | (w, es) :: rest =>
    if w = wl then (w, es ++ [entry]) :: rest
    else (w, es) :: addToGroup rest wl entry

/-- The grouping loop of `main`: files whose name has no wavelength
match are dropped. -/
def group_files (dfs : List (String × DataFrame)) :
    List (String × List (String × DataFrame)) :=
  dfs.foldl (fun g e =>
    match wavelength_of_fname e.1 with
    | some wl => addToGroup g wl e
    | none => g) []

/-- `{wl: combine_group(dfs_dict, wl) for wl, dfs_dict in grouped.items()}`
(an error in any group aborts the run). -/
def combine_all : List (String × List (String × DataFrame)) →
    Except MergeError (List (String × Option DataFrame))
  | [] => Except.ok []
  | g :: gs =>
    match combine_group g.2 with
    | Except.error e => Except.error e
    | Except.ok d =>
      match combine_all gs with
      | Except.error e => Except.error e
      | Except.ok ds => Except.ok ((g.1, d) :: ds)

/-- `main`'s parsing stage: every discovered file is read, whatever its
name (an extraction error in any file aborts the run). -/
def load_all : List (String × List String) →
    Except ExtractError (List (String × DataFrame))
  | [] => Except.ok []
  | f :: fs =>
    match read_power_instruction_table f.2 with
    | Except.error e => Except.error e
    | Except.ok df =>
      match load_all fs with
      | Except.error e => Except.error e
      | Except.ok ds => Except.ok ((f.1, df) :: ds)

/-- `int(x)` for the digit-string group keys. -/
def natOfKey (s : String) : Nat := digitsVal s.data

/-- Group keys in the export order: `sorted(combined_all.keys(), key=int)`
(Python's sort is stable; so is insertion sort). -/
def sortedKeys (combined_all : List (String × Option DataFrame)) : List String :=
  (combined_all.map Prod.fst).insertionSort (fun a b => natOfKey a ≤ natOfKey b)

/-- The Excel sheet name of a group: `f"{wl}nm"`. -/
def sheet_name (wl : String) : String := wl ++ "nm"

/-- The body of the export loop for one group key: skip when the
group's table is absent (`None`) or empty, else write the frame. -/
def export_entry (combined_all : List (String × Option DataFrame)) (wl : String) :
    Option (String × DataFrame) :=
  match combined_all.lookup wl with
  | some (some df) => if !df.empty then some (wl, df) else none
  | _ => none

/-- The export stage with the spreadsheet capability available: one
sheet per group in ascending numeric key order, skipping groups whose
table is absent (`None`) or empty.  Each element is the group key
(the sheet is named `sheet_name wl`) with the frame written to it. -/
def export_sheets (combined_all : List (String × Option DataFrame)) :
    List (String × DataFrame) :=
  if combined_all.isEmpty then []
  else (sortedKeys combined_all).filterMap (export_entry combined_all)

/- ### Plot stage (`plot_wavelength_data`) -/

inductive PlotError where
  /-- `df.columns` on `None`. -/
  | attributeError : PlotError
  /-- `int(...)` on a non-numeric month token. -/
  | valueError : PlotError
  /-- `[...][0]` on an empty candidate list. -/
  | indexError : PlotError
deriving DecidableEq, Repr

/-- `int(s)` for the month token: optional sign, then digits. -/
def parseInt? (s : String) : Option Int :=
  let t := strTrim s
  if strStarts "-" t then
    if t.data.drop 1 ≠ [] ∧ (t.data.drop 1).all Char.isDigit
    then some (-(digitsVal (t.data.drop 1) : Int)) else none
  else if strStarts "+" t then
    if t.data.drop 1 ≠ [] ∧ (t.data.drop 1).all Char.isDigit
    then some (digitsVal (t.data.drop 1) : Int) else none
  else if t.data ≠ [] ∧ t.data.all Char.isDigit then some (digitsVal t.data : Int) else none

/-- Ordered-dict update used for `month_map[month] = month_num`. -/
def assocSet (m : List (String × Int)) (k : String) (v : Int) : List (String × Int) :=
  match m with
  | [] => [(k, v)]
  | (k', v') :: rest => if k' = k then (k, v) :: rest else (k', v') :: assocSet rest k v

/-- The `month_map` loop: every non-key column containing `_power`
contributes its leading `_`-token, keyed numerically by the token
before the first `-`. -/
def monthFold (m : List (String × Int)) : List String → Except PlotError (List (String × Int))
  | [] => Except.ok m
  | col :: cs =>
    if col = keyCol then monthFold m cs
    else if containsSub "_power" col then
      match parseInt? ((strSplit '-' ((strSplit '_' col).headD "")).headD "") with
      | none => Except.error PlotError.valueError
      | some n => monthFold (assocSet m ((strSplit '_' col).headD "") n) cs
    else monthFold m cs

def build_month_map (cols : List String) : Except PlotError (List (String × Int)) :=
  monthFold [] cols

/-- First column of `df` that starts with `month` and contains `tag`. -/
def find_col (cols : List String) (month tag : String) : Option String :=
  cols.find? (fun c => strStarts month c && containsSub tag c)

/-- The series loop body: resolve the power and error column of each
month; `[0]` on an empty candidate list raises `IndexError`. -/
def seriesCheck (cols : List String) : List (String × Int) → Except PlotError Unit
  | [] => Except.ok ()
  | mo :: rest =>
    match find_col cols mo.1 "_power", find_col cols mo.1 "_error" with
    | some _, some _ => seriesCheck cols rest
    | _, _ => Except.error PlotError.indexError

/-- Rendering one group's chart: build the month map, then resolve the
power/error columns of each month (sorted numerically, stably).  The
drawing itself (`plt.errorbar` / `savefig`) accepts any series content,
including empty ones, so it is modelled as succeeding once the columns
resolve. -/
def plot_group (df : DataFrame) : Except PlotError Unit :=
  match build_month_map df.cols with
  | Except.error e => Except.error e
  | Except.ok m => seriesCheck df.cols (m.insertionSort (fun a b => a.2 ≤ b.2))

/-- The png file written for one group. -/
def plot_file (save_folder wl : String) : String :=
  save_folder ++ "/laser_power_" ++ wl ++ "nm.png"

/-- The group loop of `plot_wavelength_data`, accumulating the files
written so far: `df.columns` on an absent (`None`) table raises;
otherwise the chart is rendered and its file written. -/
def plotFold (save_folder : String) (files : List String) :
    List (String × Option DataFrame) → Except PlotError (List String)
  | [] => Except.ok files
  | g :: gs =>
    match g.2 with
    | none => Except.error PlotError.attributeError
    | some df =>
      match plot_group df with
      | Except.error e => Except.error e
      | Except.ok _ => plotFold save_folder (files ++ [plot_file save_folder g.1]) gs

/-- `plot_wavelength_data`: iterate over every group in insertion order
(no emptiness or absence check). -/
def plot_wavelength_data (combined_all : List (String × Option DataFrame))
    (save_folder : String) : Except PlotError (List String) :=
  plotFold save_folder [] combined_all

/- ### Generic helper lemmas -/

/-- A successful `load_all` run parsed every listed file, whatever its
name, and kept its table. -/
theorem load_all_mem {files : List (String × List String)} {dfs : List (String × DataFrame)}
    (h : load_all files = Except.ok dfs) {name : String} {ls : List String}
    (hm : (name, ls) ∈ files) :
    ∃ d, read_power_instruction_table ls = Except.ok d ∧ (name, d) ∈ dfs := by
  induction files generalizing dfs with
  | nil => cases hm
  | cons f fs ih =>
    obtain ⟨fn, fls⟩ := f
    rw [load_all] at h
    cases hr : read_power_instruction_table fls with
    | error e => rw [hr] at h; cases h
    | ok d0 =>
      rw [hr] at h
      cases hrest : load_all fs with
      | error e => rw [hrest] at h; cases h
      | ok ds =>
        rw [hrest] at h
        cases h
        rcases List.mem_cons.mp hm with hf | hf
        · injection hf with h1 h2
          subst h1; subst h2
          exact ⟨d0, hr, List.mem_cons_self _ _⟩
        · rcases ih hrest hf with ⟨d, hd, hdm⟩
          exact ⟨d, hd, List.mem_cons_of_mem _ hdm⟩

example : strSplit ';' "a;b;c" = ["a", "b", "c"] := by decide
example : containsSub "Result table values" "header Result table values here" = true := by decide
example : to_numeric? " 10.5 " = some ⟨105, 1⟩ := by decide
example : to_numeric? "-3" = some ⟨-3, 0⟩ := by decide
example : to_numeric? "abc" = none := by decide
example :
    read_power_instruction_table
      ["junk", "Result table values", "power_instruction;power;error",
       "10;1.5;0.1", "20;2.5;0.2", "", "tail"] =
    Except.ok
      ⟨["power_percentage_values", "power", "error"],
       [[Cell.num ⟨10, 0⟩, Cell.num ⟨15, 1⟩, Cell.num ⟨1, 1⟩],
        [Cell.num ⟨20, 0⟩, Cell.num ⟨25, 1⟩, Cell.num ⟨2, 1⟩]]⟩ := by decide

/- ### Claim theorems -/

/-- C6: the extractor fails with the MarkerNotFound-style error exactly
when the marker phrase "Result table values" appears on no line of the
file; whenever the marker is present, that error is not raised (any
failure past that point is a different error). -/
theorem C6_markerNotFound_iff (lines : List String) :
    read_power_instruction_table lines = Except.error ExtractError.markerNotFound ↔
      ∀ l ∈ lines, containsSub "Result table values" l = false := by
  rw [read_power_instruction_table]
  cases hf : lines.findIdx? (fun l => containsSub "Result table values" l) with
  | none =>
    rw [List.findIdx?_eq_none_iff] at hf
    exact ⟨fun _ => hf, fun _ => rfl⟩
  | some i =>
    have hnot : ¬ ∀ l ∈ lines, containsSub "Result table values" l = false := by
      intro hall
      simp [List.findIdx?_eq_none_iff.mpr hall] at hf
    cases hg : lines[i + 1]? with
    | none => simp [hg, hnot]
    | some hl =>
      cases hm : mk_dataframe
          (((lines.drop (i + 2)).takeWhile isDataLine).map
            (fun l => (strSplit ';' (strTrim l)).map Cell.str))
          (strSplit ';' (strTrim hl)) with
      | none => simp [hg, hm, hnot]
      | some df0 => simp [hg, hm, hnot]

theorem C6_markerNotFound_iff_witness :
    read_power_instruction_table ["no marker here"] =
      Except.error ExtractError.markerNotFound :=
  (C6_markerNotFound_iff ["no marker here"]).mpr (by decide)

/-- C9: a file whose name has no `_<digits>.csv` match is still read and
parsed by the extractor (`load_all` keeps its table, and its parse
errors still abort the run), but it lands in no wavelength group:
`group_files`, and hence every merged table derived from it, is exactly
what it would be without the file — it is dropped with no warning. -/
theorem C9_unmatched_fname_dropped (fname : String) (df : DataFrame)
    (hno : wavelength_of_fname fname = none) :
    (∀ pre post, group_files (pre ++ (fname, df) :: post) = group_files (pre ++ post)) ∧
    (∀ pre post, combine_all (group_files (pre ++ (fname, df) :: post)) =
        combine_all (group_files (pre ++ post))) ∧
    (∀ files dfs ls, load_all files = Except.ok dfs → (fname, ls) ∈ files →
        ∃ d, read_power_instruction_table ls = Except.ok d ∧ (fname, d) ∈ dfs) := by
  have h1 : ∀ pre post, group_files (pre ++ (fname, df) :: post) = group_files (pre ++ post) := by
    intro pre post
    unfold group_files
    rw [List.foldl_append, List.foldl_cons, List.foldl_append]
    congr 1
    simp [hno]
  exact ⟨h1, fun pre post => by rw [h1],
    fun files dfs ls h hm => load_all_mem h hm⟩

theorem C9_unmatched_fname_dropped_witness :
    group_files [("scan488.csv", (⟨["a"], []⟩ : DataFrame))] = group_files [] :=
  (C9_unmatched_fname_dropped "scan488.csv" ⟨["a"], []⟩ (by decide)).1 [] []

/- ### Extractor shape lemmas (shared by C7 and C10) -/

theorem foldl_max_init_le (l : List Nat) : ∀ a, a ≤ l.foldl max a := by
  induction l with
  | nil => intro a; exact Nat.le_refl a
  | cons x xs ih =>
    intro a
    exact Nat.le_trans (Nat.le_max_left a x) (ih (max a x))

theorem mem_le_foldl_max {l : List Nat} {x : Nat} (hx : x ∈ l) : ∀ a, x ≤ l.foldl max a := by
  induction l with
  | nil => cases hx
  | cons y ys ih =>
    intro a
    rcases List.mem_cons.mp hx with rfl | hx'
    · exact Nat.le_trans (Nat.le_max_right a x) (foldl_max_init_le ys (max a x))
    · exact ih hx' (max a y)

theorem foldl_max_le {l : List Nat} {m : Nat} (h : ∀ x ∈ l, x ≤ m) :
    ∀ a, a ≤ m → l.foldl max a ≤ m := by
  induction l with
  | nil => intro a ha; exact ha
  | cons x xs ih =>
    intro a ha
    exact ih (fun y hy => h y (List.mem_cons_of_mem _ hy)) (max a x)
      (Nat.max_le.mpr ⟨ha, h x (List.mem_cons_self _ _)⟩)

/-- Structured view of an extractor run: when the marker line sits after
`pre` (which lacks the marker), followed by a header line and data lines
terminated by the end of file or a boundary line, the extractor reduces
to frame construction over exactly those data lines. -/
theorem read_shape (pre : List String) (ml hl : String) (dataRows rest2 : List String)
    (hpre : ∀ l ∈ pre, containsSub "Result table values" l = false)
    (hml : containsSub "Result table values" ml = true)
    (hdata : ∀ l ∈ dataRows, isDataLine l = true)
    (hrest2 : rest2 = [] ∨ ∃ r rs, rest2 = r :: rs ∧ isDataLine r = false) :
    read_power_instruction_table (pre ++ ml :: hl :: (dataRows ++ rest2)) =
      match mk_dataframe (dataRows.map (fun l => (strSplit ';' (strTrim l)).map Cell.str))
          (strSplit ';' (strTrim hl)) with
      | none => Except.error ExtractError.columnMismatch
      | some df => Except.ok (to_numeric_all (rename_power df)) := by
  have hfind : (pre ++ ml :: hl :: (dataRows ++ rest2)).findIdx?
      (fun l => containsSub "Result table values" l) = some pre.length := by
    rw [List.findIdx?_append, List.findIdx?_eq_none_iff.mpr hpre]
    simp [List.findIdx?_cons, hml]
  have hget : (pre ++ ml :: hl :: (dataRows ++ rest2))[pre.length + 1]? = some hl := by
    rw [List.getElem?_append_right (by omega)]
    simp
  have hdrop : (pre ++ ml :: hl :: (dataRows ++ rest2)).drop (pre.length + 2) =
      dataRows ++ rest2 := by
    rw [show pre ++ ml :: hl :: (dataRows ++ rest2) =
      (pre ++ [ml, hl]) ++ (dataRows ++ rest2) by simp]
    exact List.drop_left' (by simp)
  have htake : (dataRows ++ rest2).takeWhile isDataLine = dataRows := by
    rw [List.takeWhile_append_of_pos hdata]
    rcases hrest2 with rfl | ⟨r, rs, rfl, hr⟩
    · simp
    · simp [List.takeWhile_cons, hr]
  rw [read_power_instruction_table, hfind]
  dsimp only
  rw [hget]
  dsimp only
  rw [hdrop, htake]


theorem mk_dataframe_uniform {data : List (List Cell)} {header : List String}
    (h : ∀ r ∈ data, r.length = header.length) :
    mk_dataframe data header =
      some ⟨header, data.map (fun r => r ++ List.replicate (header.length - r.length) Cell.nan)⟩ := by
  rw [mk_dataframe]
  cases data with
  | nil => simp
  | cons r rs =>
    have hmax : (((r :: rs).map List.length).foldl max 0) = header.length := by
      apply Nat.le_antisymm
      · refine foldl_max_le (fun x hx => ?_) 0 (Nat.zero_le _)
        rcases List.mem_map.mp hx with ⟨row, hrow, rfl⟩
        exact Nat.le_of_eq (h row hrow)
      · have hm : r.length ∈ (r :: rs).map List.length :=
          List.mem_map_of_mem _ (List.mem_cons_self _ _)
        calc header.length = r.length := (h r (List.mem_cons_self _ _)).symm
          _ ≤ _ := mem_le_foldl_max hm 0
    rw [if_neg (by simp)]
    dsimp only
    rw [if_pos hmax]

theorem mk_dataframe_too_wide {data : List (List Cell)} {header : List String}
    (hr : ∃ r ∈ data, header.length < r.length) :
    mk_dataframe data header = none := by
  rcases hr with ⟨r, hrm, hlt⟩
  rw [mk_dataframe]
  have hne : data.isEmpty = false := by cases data; cases hrm; rfl
  have hge : r.length ≤ (data.map List.length).foldl max 0 :=
    mem_le_foldl_max (List.mem_map_of_mem _ hrm) 0
  have hneq : ¬ ((data.map List.length).foldl max 0 = header.length) := by omega
  simp [hne, hneq]

/-- C7: with the marker present, a header line and N well-formed data
rows (each non-blank, not starting with the case-insensitive sentinel
"time", and splitting on ";" into exactly the header field count),
terminated by end of file or by the first sentinel/blank line, the
extractor returns a table of exactly N rows and the declared header
field count. -/
theorem C7_extractor_shape (pre : List String) (ml hl : String)
    (dataRows rest2 : List String)
    (hpre : ∀ l ∈ pre, containsSub "Result table values" l = false)
    (hml : containsSub "Result table values" ml = true)
    (hdata : ∀ l ∈ dataRows, isDataLine l = true)
    (hrest2 : rest2 = [] ∨ ∃ r rs, rest2 = r :: rs ∧ isDataLine r = false)
    (hcount : ∀ l ∈ dataRows,
      (strSplit ';' (strTrim l)).length = (strSplit ';' (strTrim hl)).length) :
    ∃ df, read_power_instruction_table (pre ++ ml :: hl :: (dataRows ++ rest2)) =
        Except.ok df ∧
      df.rows.length = dataRows.length ∧
      df.cols.length = (strSplit ';' (strTrim hl)).length := by
  rw [read_shape pre ml hl dataRows rest2 hpre hml hdata hrest2]
  have h' : ∀ r ∈ dataRows.map (fun l => (strSplit ';' (strTrim l)).map Cell.str),
      r.length = (strSplit ';' (strTrim hl)).length := by
    intro r hr
    rcases List.mem_map.mp hr with ⟨l, hlmem, rfl⟩
    simpa using hcount l hlmem
  rw [mk_dataframe_uniform h']
  exact ⟨_, rfl, by simp [to_numeric_all, rename_power], by simp [to_numeric_all, rename_power]⟩

theorem C7_extractor_shape_witness :
    ∃ df, read_power_instruction_table
        ["Result table values", "power_instruction;power;error", "10;1;0.1", "20;2;0.2", ""] =
        Except.ok df ∧
      df.rows.length = 2 ∧ df.cols.length = 3 := by
  have h := C7_extractor_shape [] "Result table values" "power_instruction;power;error"
    ["10;1;0.1", "20;2;0.2"] [""]
    (by intro l hl; cases hl) (by decide) (by decide)
    (Or.inr ⟨"", [], rfl, by decide⟩) (by decide)
  simpa using h

/-- C10: when some extracted data row splits into more fields than the
header line, frame construction fails (`ValueError` from
`pd.DataFrame`) and no table is returned — extra fields are never
silently truncated. -/
theorem C10_wide_row_errors (pre : List String) (ml hl : String)
    (dataRows rest2 : List String)
    (hpre : ∀ l ∈ pre, containsSub "Result table values" l = false)
    (hml : containsSub "Result table values" ml = true)
    (hdata : ∀ l ∈ dataRows, isDataLine l = true)
    (hrest2 : rest2 = [] ∨ ∃ r rs, rest2 = r :: rs ∧ isDataLine r = false)
    (hwide : ∃ l ∈ dataRows,
      (strSplit ';' (strTrim hl)).length < (strSplit ';' (strTrim l)).length) :
    read_power_instruction_table (pre ++ ml :: hl :: (dataRows ++ rest2)) =
      Except.error ExtractError.columnMismatch := by
  rw [read_shape pre ml hl dataRows rest2 hpre hml hdata hrest2]
  rcases hwide with ⟨l0, hl0, hlt⟩
  have hmem : (fun l => (strSplit ';' (strTrim l)).map Cell.str) l0 ∈
      dataRows.map (fun l => (strSplit ';' (strTrim l)).map Cell.str) :=
    List.mem_map_of_mem _ hl0
  rw [mk_dataframe_too_wide ⟨_, hmem, by simpa using hlt⟩]

theorem C10_wide_row_errors_witness :
    read_power_instruction_table
      ["Result table values", "power_instruction;power", "10;1;0.1"] =
      Except.error ExtractError.columnMismatch := by
  have h := C10_wide_row_errors [] "Result table values" "power_instruction;power"
    ["10;1;0.1"] []
    (by intro l hl; cases hl) (by decide) (by decide) (Or.inl rfl)
    ⟨"10;1;0.1", by decide, by decide⟩
  simpa using h

/- ### Export-stage lemmas (C8) -/

theorem lookup_of_mem_nodup {α β : Type} [BEq α] [LawfulBEq α]
    {L : List (α × β)} {k : α} {v : β}
    (hnd : (L.map Prod.fst).Nodup) (hm : (k, v) ∈ L) : L.lookup k = some v := by
  induction L with
  | nil => cases hm
  | cons p ps ih =>
    obtain ⟨pk, pv⟩ := p
    have hnd' : (pk :: ps.map Prod.fst).Nodup := by simpa using hnd
    rcases List.mem_cons.mp hm with he | hm'
    · injection he with h1 h2
      subst h1; subst h2
      simp
    · have hk : k ≠ pk := by
        rintro rfl
        exact (List.nodup_cons.mp hnd').1 (by simpa using List.mem_map_of_mem Prod.fst hm')
      rw [List.lookup_cons]
      simp only [beq_eq_false_iff_ne.mpr hk]
      exact ih (List.nodup_cons.mp hnd').2 hm'

theorem mem_of_lookup_eq_some {α β : Type} [BEq α] [LawfulBEq α]
    {L : List (α × β)} {k : α} {v : β}
    (h : L.lookup k = some v) : (k, v) ∈ L := by
  rcases List.lookup_eq_some_iff.mp h with ⟨l₁, l₂, rfl, -⟩
  simp

theorem map_fst_filterMap_sublist {α β : Type} (f : α → Option (α × β))
    (hf : ∀ k p, f k = some p → p.1 = k) :
    ∀ ks : List α, ((ks.filterMap f).map Prod.fst).Sublist ks := by
  intro ks
  induction ks with
  | nil => simp
  | cons k ks ih =>
    rw [List.filterMap_cons]
    cases hfk : f k with
    | none => exact ih.cons k
    | some p =>
      rw [List.map_cons]
      rw [hf k p hfk]
      exact ih.cons₂ k

/-- C8: with the spreadsheet capability available, the exporter writes
exactly one sheet per group whose merged table is present and
non-empty — the sheet of group `wl` carrying exactly that group's frame
and the name `sheet_name wl = wl ++ "nm"` — and the sheets are ordered
by ascending numeric group key.  Absent (`None`) or empty tables
produce no sheet. -/
theorem export_entry_eq_some {L : List (String × Option DataFrame)} {wl : String}
    {p : String × DataFrame} :
    export_entry L wl = some p ↔
      ∃ df, L.lookup wl = some (some df) ∧ df.empty = false ∧ p = (wl, df) := by
  rw [export_entry]
  cases hL : L.lookup wl with
  | none => simp
  | some o =>
    cases o with
    | none => simp
    | some df =>
      rcases he : df.empty with _ | _
      · dsimp only
        rw [if_pos (by simp [he])]
        constructor
        · intro h
          injection h with h'
          exact ⟨df, rfl, he, h'.symm⟩
        · rintro ⟨df1, h1, h2, rfl⟩
          injection h1 with h1'
          injection h1' with h1''
          rw [h1'']
      · dsimp only
        rw [if_neg (by simp [he])]
        constructor
        · intro h; cases h
        · rintro ⟨df1, h1, h2, rfl⟩
          injection h1 with h1'
          injection h1' with h1''
          subst h1''
          rw [he] at h2
          cases h2

theorem export_entry_fst {L : List (String × Option DataFrame)} :
    ∀ k p, export_entry L k = some p → p.1 = k := by
  intro k p hk
  rcases export_entry_eq_some.mp hk with ⟨df, -, -, rfl⟩
  rfl

theorem export_sheets_fst_sublist (L : List (String × Option DataFrame)) :
    ((export_sheets L).map Prod.fst).Sublist (sortedKeys L) := by
  rw [export_sheets]
  split
  · simp
  · exact map_fst_filterMap_sublist (export_entry L) export_entry_fst _

theorem export_sheets_mem_iff (L : List (String × Option DataFrame))
    (hnd : (L.map Prod.fst).Nodup) (wl : String) (df : DataFrame) :
    (wl, df) ∈ export_sheets L ↔ ((wl, some df) ∈ L ∧ df.empty = false) := by
  have hperm : (sortedKeys L).Perm (L.map Prod.fst) := List.perm_insertionSort _ _
  constructor
  · intro hm
    have hLne : L.isEmpty = false := by
      rcases hL : L.isEmpty with _ | _
      · rfl
      · rw [export_sheets, if_pos hL] at hm; cases hm
    rw [export_sheets, if_neg (by simp [hLne])] at hm
    rcases List.mem_filterMap.mp hm with ⟨wl', hwl', hfwl'⟩
    rcases export_entry_eq_some.mp hfwl' with ⟨df', hlook, hemp, heq⟩
    injection heq with h1 h2
    subst h1; subst h2
    exact ⟨mem_of_lookup_eq_some hlook, hemp⟩
  · rintro ⟨hm, he⟩
    have hLne : L.isEmpty = false := by
      cases L with
      | nil => cases hm
      | cons a as => rfl
    rw [export_sheets, if_neg (by simp [hLne])]
    refine List.mem_filterMap.mpr ⟨wl, ?_, ?_⟩
    · exact hperm.mem_iff.mpr (by simpa using List.mem_map_of_mem Prod.fst hm)
    · exact export_entry_eq_some.mpr ⟨df, lookup_of_mem_nodup hnd hm, he, rfl⟩

theorem C8_export_one_sheet_per_nonempty_group
    (L : List (String × Option DataFrame)) (hnd : (L.map Prod.fst).Nodup) :
    ((export_sheets L).map Prod.fst).Nodup ∧
    (∀ wl df, (wl, df) ∈ export_sheets L ↔ ((wl, some df) ∈ L ∧ df.empty = false)) ∧
    (export_sheets L).Pairwise (fun a b => natOfKey a.1 ≤ natOfKey b.1) ∧
    (∀ wl, sheet_name wl = wl ++ "nm") := by
  have hperm : (sortedKeys L).Perm (L.map Prod.fst) := List.perm_insertionSort _ _
  have hsub : ((export_sheets L).map Prod.fst).Sublist (sortedKeys L) :=
    export_sheets_fst_sublist L
  have hks_nodup : (sortedKeys L).Nodup := hperm.nodup_iff.mpr hnd
  refine ⟨hks_nodup.sublist hsub, export_sheets_mem_iff L hnd, ?_, fun _ => rfl⟩
  · have htot : IsTotal String (fun a b => natOfKey a ≤ natOfKey b) :=
      ⟨fun a b => Nat.le_total _ _⟩
    have htrans : IsTrans String (fun a b => natOfKey a ≤ natOfKey b) :=
      ⟨fun _ _ _ => Nat.le_trans⟩
    have hsorted : (sortedKeys L).Pairwise (fun a b => natOfKey a ≤ natOfKey b) := by
      exact @List.sorted_insertionSort String
        (fun a b => natOfKey a ≤ natOfKey b) _ htot htrans (L.map Prod.fst)
    have hmapped : ((export_sheets L).map Prod.fst).Pairwise
        (fun a b => natOfKey a ≤ natOfKey b) := hsorted.sublist hsub
    have hfinal := List.pairwise_map.mp hmapped
    exact hfinal

theorem C8_export_one_sheet_per_nonempty_group_witness :
    ((export_sheets [("488", some ⟨["power_percentage_values"], [[Cell.num ⟨10, 0⟩]]⟩),
        ("30", some ⟨["power_percentage_values"], []⟩), ("7", none)]).map Prod.fst).Nodup :=
  (C8_export_one_sheet_per_nonempty_group _ (by decide)).1

/- ### Order and equivalence lemmas for cells -/

theorem Dec.eqv_iff {a b : Dec} :
    Dec.eqv a b = true ↔ a.mant * (10 : Int) ^ b.exp = b.mant * (10 : Int) ^ a.exp := by
  rw [Dec.eqv, decide_eq_true_eq]

theorem Dec.le_iff {a b : Dec} :
    Dec.le a b = true ↔ a.mant * (10 : Int) ^ b.exp ≤ b.mant * (10 : Int) ^ a.exp := by
  rw [Dec.le, decide_eq_true_eq]

theorem Dec.eqv_refl (a : Dec) : Dec.eqv a a = true := Dec.eqv_iff.mpr rfl

theorem Dec.eqv_symm {a b : Dec} (h : Dec.eqv a b = true) : Dec.eqv b a = true :=
  Dec.eqv_iff.mpr (Dec.eqv_iff.mp h).symm

theorem Dec.eqv_trans {a b c : Dec} (h1 : Dec.eqv a b = true) (h2 : Dec.eqv b c = true) :
    Dec.eqv a c = true := by
  rw [Dec.eqv_iff] at h1 h2 ⊢
  have hp : ((10 : Int) ^ b.exp) ≠ 0 := pow_ne_zero _ (by norm_num)
  have key : a.mant * (10 : Int) ^ c.exp * (10 : Int) ^ b.exp =
      c.mant * (10 : Int) ^ a.exp * (10 : Int) ^ b.exp := by
    calc a.mant * (10 : Int) ^ c.exp * (10 : Int) ^ b.exp
        = a.mant * (10 : Int) ^ b.exp * (10 : Int) ^ c.exp := by ring
      _ = b.mant * (10 : Int) ^ a.exp * (10 : Int) ^ c.exp := by rw [h1]
      _ = b.mant * (10 : Int) ^ c.exp * (10 : Int) ^ a.exp := by ring
      _ = c.mant * (10 : Int) ^ b.exp * (10 : Int) ^ a.exp := by rw [h2]
      _ = c.mant * (10 : Int) ^ a.exp * (10 : Int) ^ b.exp := by ring
  exact mul_right_cancel₀ hp key

theorem Dec.le_refl (a : Dec) : Dec.le a a = true := Dec.le_iff.mpr (Int.le_refl _)

theorem Dec.le_total_bool (a b : Dec) : Dec.le a b = true ∨ Dec.le b a = true := by
  rw [Dec.le_iff, Dec.le_iff]
  exact Int.le_total _ _

theorem Dec.le_trans_bool {a b c : Dec} (h1 : Dec.le a b = true) (h2 : Dec.le b c = true) :
    Dec.le a c = true := by
  rw [Dec.le_iff] at h1 h2 ⊢
  have hc : (0 : Int) ≤ (10 : Int) ^ c.exp := pow_nonneg (by norm_num) _
  have ha : (0 : Int) ≤ (10 : Int) ^ a.exp := pow_nonneg (by norm_num) _
  have hbpos : (0 : Int) < (10 : Int) ^ b.exp := pow_pos (by norm_num) _
  have h1' := mul_le_mul_of_nonneg_right h1 hc
  have h2' := mul_le_mul_of_nonneg_right h2 ha
  have hchain : a.mant * (10 : Int) ^ c.exp * (10 : Int) ^ b.exp ≤
      c.mant * (10 : Int) ^ a.exp * (10 : Int) ^ b.exp := by nlinarith
  exact le_of_mul_le_mul_right hchain hbpos

theorem Dec.le_antisymm_eqv {a b : Dec} (h1 : Dec.le a b = true) (h2 : Dec.le b a = true) :
    Dec.eqv a b = true := by
  rw [Dec.le_iff] at h1 h2
  exact Dec.eqv_iff.mpr (Int.le_antisymm h1 h2)

theorem listLt_asymm : ∀ {a b : List Char}, listLt a b = true → listLt b a = false := by
  intro a
  induction a with
  | nil =>
    intro b h
    cases b with
    | nil => cases h
    | cons y ys => rfl
  | cons x xs ih =>
    intro b h
    cases b with
    | nil => cases h
    | cons y ys =>
      by_cases hxy : x < y
      · simp [listLt, hxy, asymm hxy]
      · by_cases hyx : y < x
        · simp [listLt, hxy, hyx] at h
        · simp [listLt, hxy, hyx] at h ⊢
          exact ih h

theorem listLt_trans : ∀ {a b c : List Char},
    listLt a b = true → listLt b c = true → listLt a c = true := by
  intro a
  induction a with
  | nil =>
    intro b c h1 h2
    cases b with
    | nil => cases h1
    | cons y ys =>
      cases c with
      | nil => cases h2
      | cons z zs => rfl
  | cons x xs ih =>
    intro b c h1 h2
    cases b with
    | nil => cases h1
    | cons y ys =>
      cases c with
      | nil => cases h2
      | cons z zs =>
        by_cases hxy : x < y
        · by_cases hyz : y < z
          · simp [listLt, lt_trans hxy hyz]
          · by_cases hzy : z < y
            · simp [listLt, hyz, hzy] at h2
            · have hyzeq : y = z := le_antisymm (not_lt.mp hzy) (not_lt.mp hyz)
              subst hyzeq
              simp [listLt, hxy]
        · by_cases hyx : y < x
          · simp [listLt, hxy, hyx] at h1
          · have hxyeq : x = y := le_antisymm (not_lt.mp hyx) (not_lt.mp hxy)
            subst hxyeq
            simp [listLt, lt_irrefl] at h1
            by_cases hyz : x < z
            · simp [listLt, hyz]
            · by_cases hzy : z < x
              · simp [listLt, hyz, hzy] at h2
              · simp [listLt, hyz, hzy] at h2 ⊢
                exact ih h1 h2

theorem listLt_conn : ∀ {a b : List Char},
    listLt a b = false → listLt b a = false → a = b := by
  intro a
  induction a with
  | nil =>
    intro b h1 h2
    cases b with
    | nil => rfl
    | cons y ys => cases h1
  | cons x xs ih =>
    intro b h1 h2
    cases b with
    | nil => cases h2
    | cons y ys =>
      by_cases hxy : x < y
      · simp [listLt, hxy] at h1
      · by_cases hyx : y < x
        · simp [listLt, hyx] at h2
        · have hxyeq : x = y := le_antisymm (not_lt.mp hyx) (not_lt.mp hxy)
          subst hxyeq
          simp [listLt, lt_irrefl] at h1 h2
          rw [ih h1 h2]

theorem listLe_trans {a b c : List Char} (h1 : listLt b a = false) (h2 : listLt c b = false) :
    listLt c a = false := by
  rcases h : listLt c a with _ | _
  · rfl
  · exfalso
    rcases hbc : listLt b c with _ | _
    · have hbceq : b = c := listLt_conn hbc h2
      subst hbceq
      rw [h] at h1
      cases h1
    · have := listLt_trans hbc h
      rw [this] at h1
      cases h1

theorem cellEqv_refl (a : Cell) : cellEqv a a = true := by
  cases a with
  | nan => rfl
  | num d => exact Dec.eqv_refl d
  | str s => simp [cellEqv]

theorem cellEqv_symm : ∀ {a b : Cell}, cellEqv a b = true → cellEqv b a = true := by
  intro a b h
  cases a <;> cases b <;> try exact h
  case num.num d e => exact Dec.eqv_symm h
  case str.str s t =>
    simp only [cellEqv, decide_eq_true_eq] at h ⊢
    exact h.symm

theorem cellEqv_trans : ∀ {a b c : Cell},
    cellEqv a b = true → cellEqv b c = true → cellEqv a c = true := by
  intro a b c h1 h2
  cases a <;> cases b <;> cases c <;> first
    | exact Bool.noConfusion h1
    | exact Bool.noConfusion h2
    | rfl
    | exact Dec.eqv_trans h1 h2
    | (simp only [cellEqv, decide_eq_true_eq] at h1 h2 ⊢; exact h1.trans h2)

theorem cellLe_refl (a : Cell) : cellLe a a = true := by
  cases a with
  | nan => rfl
  | num d => exact Dec.le_refl d
  | str s =>
    rcases h : listLt s.data s.data with _ | _
    · simp [cellLe, h]
    · have := listLt_asymm h
      rw [this] at h
      cases h

theorem cellLe_total : ∀ (a b : Cell), cellLe a b = true ∨ cellLe b a = true := by
  intro a b
  cases a <;> cases b <;> try (left; rfl)
  case nan.num => right; rfl
  case nan.str => right; rfl
  case num.num d e => exact Dec.le_total_bool d e
  case str.num => right; rfl
  case str.str s t =>
    rcases hlt : listLt t.data s.data with _ | _
    · left; simp [cellLe, hlt]
    · right; simp [cellLe, listLt_asymm hlt]

theorem cellLe_trans : ∀ {a b c : Cell},
    cellLe a b = true → cellLe b c = true → cellLe a c = true := by
  intro a b c h1 h2
  cases a <;> cases b <;> cases c <;> first
    | exact Bool.noConfusion h1
    | exact Bool.noConfusion h2
    | rfl
    | exact Dec.le_trans_bool h1 h2
    | (simp only [cellLe, Bool.not_eq_true'] at h1 h2 ⊢; exact listLe_trans h1 h2)

theorem cellLe_antisymm_eqv : ∀ {a b : Cell},
    cellLe a b = true → cellLe b a = true → cellEqv a b = true := by
  intro a b h1 h2
  cases a <;> cases b <;> first
    | exact Bool.noConfusion h1
    | exact Bool.noConfusion h2
    | rfl
    | exact Dec.le_antisymm_eqv h1 h2
    | (simp only [cellLe, Bool.not_eq_true'] at h1 h2
       simp only [cellEqv, decide_eq_true_eq]
       rename_i s t
       have hd : s.data = t.data := listLt_conn h2 h1
       cases s; cases t
       simp only [String.data] at hd
       rw [hd])

theorem cellEqv_false_symm {a b : Cell} (h : cellEqv a b = false) : cellEqv b a = false := by
  rcases hh : cellEqv b a with _ | _
  · rfl
  · rw [cellEqv_symm hh] at h
    cases h

/- ### drop_duplicates and sort_values lemmas -/

instance (ki : Nat) : IsTotal (List Cell) (RowLe ki) :=
  ⟨fun r s => cellLe_total (cellAt ki r) (cellAt ki s)⟩

instance (ki : Nat) : IsTrans (List Cell) (RowLe ki) :=
  ⟨fun _ _ _ h1 h2 => cellLe_trans h1 h2⟩

theorem sort_values_cols (df : DataFrame) : (sort_values df).cols = df.cols := rfl

theorem sort_values_perm (df : DataFrame) : (sort_values df).rows.Perm df.rows :=
  List.perm_insertionSort _ _

theorem sort_values_sorted (df : DataFrame) :
    (sort_values df).rows.Pairwise (RowLe (colIdx df keyCol)) :=
  List.sorted_insertionSort _ _

theorem drop_duplicates_cols (df : DataFrame) : (drop_duplicates df).cols = df.cols := rfl

theorem dedupByKey_sublist (ki : Nat) :
    ∀ (rows : List (List Cell)) (seen : List Cell),
      (dedupByKey ki rows seen).Sublist rows := by
  intro rows
  induction rows with
  | nil => intro seen; simp [dedupByKey]
  | cons r rs ih =>
    intro seen
    rw [dedupByKey]
    split
    · exact (ih seen).cons r
    · exact (ih _).cons₂ r

theorem dedupByKey_not_seen (ki : Nat) :
    ∀ (rows : List (List Cell)) (seen : List Cell) (r' : List Cell),
      r' ∈ dedupByKey ki rows seen → ∀ c ∈ seen, cellEqv (cellAt ki r') c = false := by
  intro rows
  induction rows with
  | nil => intro seen r' hr'; cases hr'
  | cons r rs ih =>
    intro seen r' hr' c hc
    rw [dedupByKey] at hr'
    split at hr'
    · exact ih seen r' hr' c hc
    · next hcond =>
      rcases List.mem_cons.mp hr' with rfl | hmem
      · rcases ha : cellEqv (cellAt ki r') c with _ | _
        · rfl
        · exact absurd (List.any_eq_true.mpr ⟨c, hc, ha⟩) hcond
      · exact ih _ r' hmem c (List.mem_cons_of_mem _ hc)

theorem dedupByKey_pairwise (ki : Nat) :
    ∀ (rows : List (List Cell)) (seen : List Cell),
      (dedupByKey ki rows seen).Pairwise
        (fun r s => cellEqv (cellAt ki r) (cellAt ki s) = false) := by
  intro rows
  induction rows with
  | nil => intro seen; simp [dedupByKey]
  | cons r rs ih =>
    intro seen
    rw [dedupByKey]
    split
    · exact ih seen
    · refine List.Pairwise.cons ?_ (ih _)
      intro r' hr'
      have h := dedupByKey_not_seen ki rs _ r' hr' (cellAt ki r) (List.mem_cons_self _ _)
      exact cellEqv_false_symm h

theorem dedupByKey_key_preserved (ki : Nat) :
    ∀ (rows : List (List Cell)) (seen : List Cell) (k : Cell),
      (∃ r ∈ rows, cellEqv (cellAt ki r) k = true) →
      (∀ c ∈ seen, cellEqv c k = false) →
      ∃ r' ∈ dedupByKey ki rows seen, cellEqv (cellAt ki r') k = true := by
  intro rows
  induction rows with
  | nil => rintro seen k ⟨r, hr, -⟩; cases hr
  | cons r rs ih =>
    rintro seen k ⟨r0, hr0, hr0k⟩ hseen
    rw [dedupByKey]
    split
    · next hcond =>
      rcases List.mem_cons.mp hr0 with rfl | hmem
      · exfalso
        rcases List.any_eq_true.mp hcond with ⟨c, hc, hrc⟩
        have : cellEqv c k = true :=
          cellEqv_trans (cellEqv_symm hrc) hr0k
        rw [hseen c hc] at this
        cases this
      · exact ih seen k ⟨r0, hmem, hr0k⟩ hseen
    · next hcond =>
      rcases List.mem_cons.mp hr0 with rfl | hmem
      · exact ⟨r0, List.mem_cons_self _ _, hr0k⟩
      · rcases hk : cellEqv (cellAt ki r) k with _ | _
        · have hseen' : ∀ c ∈ cellAt ki r :: seen, cellEqv c k = false := by
            intro c hc
            rcases List.mem_cons.mp hc with rfl | hcs
            · exact hk
            · exact hseen c hcs
          rcases ih _ k ⟨r0, hmem, hr0k⟩ hseen' with ⟨r', hr', hrk⟩
          exact ⟨r', List.mem_cons_of_mem _ hr', hrk⟩
        · exact ⟨r, List.mem_cons_self _ _, hk⟩

theorem dedupByKey_filter_nil (ki : Nat) :
    ∀ (rows : List (List Cell)) (seen : List Cell) (k : Cell),
      (∃ c ∈ seen, cellEqv c k = true) →
      (dedupByKey ki rows seen).filter (fun r' => cellEqv (cellAt ki r') k) = [] := by
  rintro rows seen k ⟨c, hc, hck⟩
  rw [List.filter_eq_nil_iff]
  intro r' hr'
  have h1 := dedupByKey_not_seen ki rows seen r' hr' c hc
  intro hk
  rw [cellEqv_trans hk (cellEqv_symm hck)] at h1
  cases h1

theorem dedupByKey_filter_first (ki : Nat) :
    ∀ (rows : List (List Cell)) (seen : List Cell) (k : Cell) (r : List Cell),
      rows.find? (fun r' => cellEqv (cellAt ki r') k) = some r →
      (∀ c ∈ seen, cellEqv c k = false) →
      (dedupByKey ki rows seen).filter (fun r' => cellEqv (cellAt ki r') k) = [r] := by
  intro rows
  induction rows with
  | nil => intro seen k r hf; cases hf
  | cons r0 rs ih =>
    intro seen k r hf hseen
    rcases hp : cellEqv (cellAt ki r0) k with _ | _
    · rw [List.find?_cons_of_neg _ (by simp [hp])] at hf
      rw [dedupByKey]
      split
      · exact ih seen k r hf hseen
      · rw [List.filter_cons_of_neg (by simp [hp])]
        refine ih _ k r hf ?_
        intro c hc
        rcases List.mem_cons.mp hc with rfl | hcs
        · exact hp
        · exact hseen c hcs
    · rw [List.find?_cons_of_pos _ (by simp [hp])] at hf
      injection hf with hf
      subst hf
      rw [dedupByKey]
      have hcond : (seen.any (fun c => cellEqv (cellAt ki r0) c)) = false := by
        rw [List.any_eq_false]
        intro c hc
        intro hrc
        have : cellEqv c k = true := cellEqv_trans (cellEqv_symm hrc) hp
        rw [hseen c hc] at this
        cases this
      rw [if_neg (by simp [hcond])]
      rw [List.filter_cons_of_pos (by simp [hp])]
      rw [dedupByKey_filter_nil ki rs _ k ⟨cellAt ki r0, List.mem_cons_self _ _, hp⟩]

/- ### combine_group structure lemmas -/

/-- The key column list of a frame. -/
def keyList (df : DataFrame) : List Cell :=
  df.rows.map (cellAt (colIdx df keyCol))

theorem combine_group_eq_some {group : List (String × DataFrame)} {M : DataFrame}
    (h : combine_group group = Except.ok (some M)) :
    ∃ A, combineFold none group = Except.ok (some A) ∧ hasCol A keyCol = true ∧
      M = sort_values (drop_duplicates A) := by
  rw [combine_group] at h
  cases hf : combineFold none group with
  | error e => rw [hf] at h; cases h
  | ok o =>
    cases o with
    | none => rw [hf] at h; simp at h
    | some A =>
      rw [hf] at h
      dsimp only at h
      rcases hk : hasCol A keyCol with _ | _
      · rw [if_neg (by simp [hk])] at h; cases h
      · rw [if_pos (by simp [hk])] at h
        refine ⟨A, rfl, hk, ?_⟩
        injection h with h'
        injection h' with h''
        exact h''.symm

/-- C4: when the table produced by the join sequence contains two or
more rows sharing one key value, the final merged table keeps exactly
one row for that key — the first occurrence in join order
(`drop_duplicates` keep-first). -/
theorem C4_keep_first_dedup (group : List (String × DataFrame)) (A : DataFrame) (k : Cell)
    (hfold : combineFold none group = Except.ok (some A))
    (hkey : hasCol A keyCol = true)
    (hdup : 2 ≤ A.rows.countP (fun r => cellEqv (cellAt (colIdx A keyCol) r) k)) :
    ∃ M r, combine_group group = Except.ok (some M) ∧
      A.rows.find? (fun r' => cellEqv (cellAt (colIdx A keyCol) r') k) = some r ∧
      M.rows.filter (fun r' => cellEqv (cellAt (colIdx M keyCol) r') k) = [r] := by
  have hM : combine_group group = Except.ok (some (sort_values (drop_duplicates A))) := by
    rw [combine_group, hfold]
    dsimp only
    rw [if_pos (by simp [hkey])]
  have hpos : 0 < A.rows.countP (fun r => cellEqv (cellAt (colIdx A keyCol) r) k) := by omega
  rcases List.countP_pos_iff.mp hpos with ⟨r0, hr0, hr0k⟩
  have hfind : (A.rows.find? (fun r' => cellEqv (cellAt (colIdx A keyCol) r') k)).isSome := by
    rw [List.find?_isSome]
    exact ⟨r0, hr0, hr0k⟩
  rcases Option.isSome_iff_exists.mp hfind with ⟨r, hr⟩
  refine ⟨sort_values (drop_duplicates A), r, hM, hr, ?_⟩
  have hded : (dedupByKey (colIdx A keyCol) A.rows []).filter
      (fun r' => cellEqv (cellAt (colIdx A keyCol) r') k) = [r] :=
    dedupByKey_filter_first (colIdx A keyCol) A.rows [] k r hr (by intro c hc; cases hc)
  have hperm := (sort_values_perm (drop_duplicates A)).filter
    (fun r' => cellEqv (cellAt (colIdx A keyCol) r') k)
  rw [drop_duplicates] at hperm
  dsimp only at hperm
  rw [hded] at hperm
  exact List.perm_singleton.mp hperm

/-- C5: the final merged table's rows are strictly ascending in the key
column: consecutive key cells are `cellLe`-ordered and never
value-equal.  On numeric cells this strict order is exactly the strict
numeric order of the decimal values, and on string cells it is exactly
the strict lexicographic order — so a numeric key column is numerically
ascending and a string key column lexically ascending. -/
theorem C5_sorted_ascending (group : List (String × DataFrame)) (M : DataFrame)
    (hcomb : combine_group group = Except.ok (some M))
    (hdist : 2 ≤ (keyList M).length) :
    List.Chain' cellLt (keyList M) ∧
    (∀ a b : Dec, (cellLt (Cell.num a) (Cell.num b)) ↔
      a.mant * (10 : Int) ^ b.exp < b.mant * (10 : Int) ^ a.exp) ∧
    (∀ s t : String, (cellLt (Cell.str s) (Cell.str t)) ↔ listLt s.data t.data = true) := by
  rcases combine_group_eq_some hcomb with ⟨A, hfold, hkey, rfl⟩
  refine ⟨?_, ?_, ?_⟩
  · have hsorted : (sort_values (drop_duplicates A)).rows.Pairwise
        (RowLe (colIdx A keyCol)) := sort_values_sorted (drop_duplicates A)
    have hded : (dedupByKey (colIdx A keyCol) A.rows []).Pairwise
        (fun r s => cellEqv (cellAt (colIdx A keyCol) r) (cellAt (colIdx A keyCol) s) = false) :=
      dedupByKey_pairwise (colIdx A keyCol) A.rows []
    have hperm : (sort_values (drop_duplicates A)).rows.Perm
        (dedupByKey (colIdx A keyCol) A.rows []) := sort_values_perm (drop_duplicates A)
    have hsym : Symmetric (fun r s : List Cell =>
        cellEqv (cellAt (colIdx A keyCol) r) (cellAt (colIdx A keyCol) s) = false) :=
      fun r s h => cellEqv_false_symm h
    have hne : (sort_values (drop_duplicates A)).rows.Pairwise
        (fun r s => cellEqv (cellAt (colIdx A keyCol) r) (cellAt (colIdx A keyCol) s) = false) :=
      (hperm.pairwise_iff (fun h => cellEqv_false_symm h)).mpr hded
    have hand := hsorted.and hne
    have hmap : (keyList (sort_values (drop_duplicates A))).Pairwise cellLt := by
      rw [keyList]
      rw [List.pairwise_map]
      exact hand
    exact hmap.chain'
  · intro a b
    rw [cellLt]
    simp only [cellLe, cellEqv]
    constructor
    · rintro ⟨hle, hne⟩
      rcases lt_or_eq_of_le (Dec.le_iff.mp hle) with hlt | heq
      · exact hlt
      · rw [Dec.eqv_iff.mpr heq] at hne; cases hne
    · intro hlt
      refine ⟨Dec.le_iff.mpr (le_of_lt hlt), ?_⟩
      rcases he : Dec.eqv a b with _ | _
      · rfl
      · rw [Dec.eqv_iff.mp he] at hlt
        exact absurd hlt (lt_irrefl _)
  · intro s t
    rw [cellLt]
    constructor
    · rintro ⟨hle, hne⟩
      simp only [cellLe, Bool.not_eq_true'] at hle
      simp only [cellEqv, decide_eq_false_iff_not] at hne
      rcases hst : listLt s.data t.data with _ | _
      · exfalso
        apply hne
        have hd : s.data = t.data := listLt_conn hst hle
        cases s; cases t
        simp only [String.data] at hd
        rw [hd]
      · rfl
    · intro hlt
      refine ⟨?_, ?_⟩
      · simp only [cellLe, Bool.not_eq_true']
        exact listLt_asymm hlt
      · simp only [cellEqv, decide_eq_false_iff_not]
        intro he
        rw [he] at hlt
        have := listLt_asymm hlt
        rw [this] at hlt
        cases hlt

theorem C4_keep_first_dedup_witness :
    ∃ M r, combine_group [("07-25_a_488.csv",
        (⟨["power_percentage_values", "power"],
          [[Cell.num ⟨10, 0⟩, Cell.num ⟨1, 0⟩],
           [Cell.num ⟨10, 0⟩, Cell.num ⟨2, 0⟩]]⟩ : DataFrame))] = Except.ok (some M) ∧
      (⟨["power_percentage_values", "07-25_power"],
        [[Cell.num ⟨10, 0⟩, Cell.num ⟨1, 0⟩],
         [Cell.num ⟨10, 0⟩, Cell.num ⟨2, 0⟩]]⟩ : DataFrame).rows.find?
        (fun r' => cellEqv (cellAt (colIdx (⟨["power_percentage_values", "07-25_power"],
          [[Cell.num ⟨10, 0⟩, Cell.num ⟨1, 0⟩],
           [Cell.num ⟨10, 0⟩, Cell.num ⟨2, 0⟩]]⟩ : DataFrame) keyCol) r')
          (Cell.num ⟨10, 0⟩)) = some r ∧
      M.rows.filter (fun r' => cellEqv (cellAt (colIdx M keyCol) r') (Cell.num ⟨10, 0⟩)) = [r] :=
  C4_keep_first_dedup _ _ _ (by decide) (by decide) (by decide)

theorem C5_sorted_ascending_witness :
    List.Chain' cellLt (keyList
      (⟨["power_percentage_values", "07-25_power"],
        [[Cell.num ⟨10, 0⟩, Cell.num ⟨1, 0⟩],
         [Cell.num ⟨20, 0⟩, Cell.num ⟨2, 0⟩]]⟩ : DataFrame)) :=
  (C5_sorted_ascending [("07-25_a_488.csv",
      ⟨["power_percentage_values", "power"],
       [[Cell.num ⟨20, 0⟩, Cell.num ⟨2, 0⟩],
        [Cell.num ⟨10, 0⟩, Cell.num ⟨1, 0⟩]]⟩)] _ (by decide) (by decide)).1

/-- C2 (amended): merging a group of a single `(fname, table)` pair does
not return the table unchanged — every non-key column is renamed with
the `<date>_` label taken from the filename (the key column name alone
stays as-is), and the rows are deduplicated by key value (keep-first)
and sorted ascending by key.  The surviving rows are rows of the input
table and the set of key values is preserved. -/
theorem C2_single_group_renamed (fname : String) (df : DataFrame)
    (hkey : hasCol (rename_by_date (date_of fname) df) keyCol = true) :
    ∃ M, combine_group [(fname, df)] = Except.ok (some M) ∧
      M.cols = df.cols.map (fun c => if c = keyCol then c else date_of fname ++ "_" ++ c) ∧
      (∀ r ∈ M.rows, r ∈ df.rows) ∧
      M.rows.Pairwise (fun r s =>
        cellEqv (cellAt (colIdx M keyCol) r) (cellAt (colIdx M keyCol) s) = false) ∧
      M.rows.Pairwise (RowLe (colIdx M keyCol)) ∧
      (∀ k, (∃ r ∈ M.rows, cellEqv (cellAt (colIdx M keyCol) r) k = true) ↔
            (∃ r ∈ df.rows, cellEqv (cellAt (colIdx M keyCol) r) k = true)) := by
  have hfold : combineFold none [(fname, df)] =
      Except.ok (some (rename_by_date (date_of fname) df)) := rfl
  have hM : combine_group [(fname, df)] = Except.ok
      (some (sort_values (drop_duplicates (rename_by_date (date_of fname) df)))) := by
    rw [combine_group, hfold]
    dsimp only
    rw [if_pos (by simp [hkey])]
  set D := rename_by_date (date_of fname) df with hD
  refine ⟨sort_values (drop_duplicates D), hM, rfl, ?_, ?_, ?_, ?_⟩
  · intro r hr
    have h1 : r ∈ (drop_duplicates D).rows := (sort_values_perm (drop_duplicates D)).mem_iff.mp hr
    have h2 : r ∈ D.rows := (dedupByKey_sublist _ D.rows []).mem h1
    exact h2
  · have hded := dedupByKey_pairwise (colIdx D keyCol) D.rows []
    have hperm : (sort_values (drop_duplicates D)).rows.Perm
        (dedupByKey (colIdx D keyCol) D.rows []) := sort_values_perm (drop_duplicates D)
    exact (hperm.pairwise_iff (fun h => cellEqv_false_symm h)).mpr hded
  · exact sort_values_sorted (drop_duplicates D)
  · intro k
    constructor
    · rintro ⟨r, hr, hk⟩
      have h1 : r ∈ (drop_duplicates D).rows :=
        (sort_values_perm (drop_duplicates D)).mem_iff.mp hr
      have h2 : r ∈ D.rows := (dedupByKey_sublist _ D.rows []).mem h1
      exact ⟨r, h2, hk⟩
    · rintro ⟨r, hr, hk⟩
      rcases dedupByKey_key_preserved (colIdx D keyCol) D.rows [] k
          ⟨r, hr, hk⟩ (by intro c hc; cases hc) with ⟨r', hr', hrk⟩
      refine ⟨r', ?_, hrk⟩
      exact (sort_values_perm (drop_duplicates D)).mem_iff.mpr hr'

theorem C2_single_group_renamed_witness :
    ∃ M, combine_group [("07-25_scan_488.csv",
        (⟨["power_percentage_values", "power"],
          [[Cell.num ⟨10, 0⟩, Cell.num ⟨1, 0⟩]]⟩ : DataFrame))] = Except.ok (some M) ∧
      M.cols = ["power_percentage_values", "power"].map
        (fun c => if c = keyCol then c else date_of "07-25_scan_488.csv" ++ "_" ++ c) ∧
      (∀ r ∈ M.rows, r ∈ [[Cell.num ⟨10, 0⟩, Cell.num ⟨1, 0⟩]]) ∧
      M.rows.Pairwise (fun r s =>
        cellEqv (cellAt (colIdx M keyCol) r) (cellAt (colIdx M keyCol) s) = false) ∧
      M.rows.Pairwise (RowLe (colIdx M keyCol)) ∧
      (∀ k, (∃ r ∈ M.rows, cellEqv (cellAt (colIdx M keyCol) r) k = true) ↔
            (∃ r ∈ [[Cell.num ⟨10, 0⟩, Cell.num ⟨1, 0⟩]],
              cellEqv (cellAt (colIdx M keyCol) r) k = true)) :=
  C2_single_group_renamed "07-25_scan_488.csv"
    ⟨["power_percentage_values", "power"], [[Cell.num ⟨10, 0⟩, Cell.num ⟨1, 0⟩]]⟩
    (by decide)

/-- C2 (counterexample): a one-table group is not returned unchanged:
the non-key column "power" is renamed to "07-25_power" by the label
taken from the filename, so the merged table differs from the input
table. -/
theorem C2_counterexample :
    combine_group [("07-25_scan_488.csv",
        (⟨["power_percentage_values", "power"],
          [[Cell.num ⟨10, 0⟩, Cell.num ⟨1, 0⟩]]⟩ : DataFrame))] =
      Except.ok (some ⟨["power_percentage_values", "07-25_power"],
        [[Cell.num ⟨10, 0⟩, Cell.num ⟨1, 0⟩]]⟩) ∧
    (⟨["power_percentage_values", "07-25_power"],
      [[Cell.num ⟨10, 0⟩, Cell.num ⟨1, 0⟩]]⟩ : DataFrame) ≠
      ⟨["power_percentage_values", "power"], [[Cell.num ⟨10, 0⟩, Cell.num ⟨1, 0⟩]]⟩ := by
  decide

/- ### Plot-stage lemmas (C1) -/

theorem plotFold_acc_mem {folder : String} :
    ∀ (L : List (String × Option DataFrame)) (acc files : List String),
      plotFold folder acc L = Except.ok files → ∀ x ∈ acc, x ∈ files := by
  intro L
  induction L with
  | nil =>
    intro acc files h x hx
    rw [plotFold] at h
    injection h with h'
    rw [← h']
    exact hx
  | cons g gs ih =>
    intro acc files h x hx
    obtain ⟨gw, godf⟩ := g
    rw [plotFold] at h
    cases godf with
    | none => cases h
    | some df =>
      dsimp only at h
      cases hp : plot_group df with
      | error e => rw [hp] at h; cases h
      | ok u =>
        rw [hp] at h
        exact ih _ files h x (List.mem_append_left _ hx)

theorem plotFold_none_errors {folder : String} :
    ∀ (L : List (String × Option DataFrame)) (acc : List String) (wl : String),
      (wl, (none : Option DataFrame)) ∈ L →
      ∃ e, plotFold folder acc L = Except.error e := by
  intro L
  induction L with
  | nil => intro acc wl h; cases h
  | cons g gs ih =>
    intro acc wl h
    obtain ⟨gw, godf⟩ := g
    rw [plotFold]
    cases godf with
    | none => exact ⟨PlotError.attributeError, rfl⟩
    | some df =>
      dsimp only
      cases hp : plot_group df with
      | error e => exact ⟨e, rfl⟩
      | ok u =>
        rcases List.mem_cons.mp h with heq | hmem
        · cases heq
        · exact ih _ wl hmem

theorem plotFold_file_written {folder : String} :
    ∀ (L : List (String × Option DataFrame)) (acc files : List String)
      (wl : String) (odf : Option DataFrame),
      plotFold folder acc L = Except.ok files → (wl, odf) ∈ L →
      plot_file folder wl ∈ files := by
  intro L
  induction L with
  | nil => intro acc files wl odf h hm; cases hm
  | cons g gs ih =>
    intro acc files wl odf h hm
    obtain ⟨gw, godf⟩ := g
    rw [plotFold] at h
    cases godf with
    | none => cases h
    | some df =>
      dsimp only at h
      cases hp : plot_group df with
      | error e => rw [hp] at h; cases h
      | ok u =>
        rw [hp] at h
        rcases List.mem_cons.mp hm with heq | hmem
        · injection heq with h1 h2
          subst h1
          exact plotFold_acc_mem gs _ files h _
            (List.mem_append_right _ (List.mem_singleton.mpr rfl))
        · exact ih _ files wl odf h hmem

/-- C1 (amended): a group whose merge produced no data is skipped only
at the export stage: no sheet is written for its key.  The plot stage
does not skip such a group: when its table is present but empty, the
group's chart file is still among the files written whenever the plot
stage succeeds, and when its table is absent (`None`) the plot stage
raises an error instead of skipping silently. -/
theorem C1_export_skips_plot_does_not
    (L : List (String × Option DataFrame)) (folder wl : String) (odf : Option DataFrame)
    (hnd : (L.map Prod.fst).Nodup)
    (hmem : (wl, odf) ∈ L)
    (hnodata : odf = none ∨ ∃ d, odf = some d ∧ d.rows = []) :
    (∀ s ∈ export_sheets L, s.1 ≠ wl) ∧
    (odf = none → ∃ e, plot_wavelength_data L folder = Except.error e) ∧
    (∀ files, plot_wavelength_data L folder = Except.ok files →
      plot_file folder wl ∈ files) := by
  refine ⟨?_, ?_, ?_⟩
  · intro s hs heq
    obtain ⟨swl, sdf⟩ := s
    dsimp only at heq
    subst heq
    have hmm := (export_sheets_mem_iff L hnd swl sdf).mp hs
    have h1 := lookup_of_mem_nodup hnd hmem
    have h2 := lookup_of_mem_nodup hnd hmm.1
    rw [h1] at h2
    injection h2 with h3
    rcases hnodata with rfl | ⟨d, rfl, hrows⟩
    · cases h3
    · injection h3 with h4
      have : sdf.empty = true := by
        rw [DataFrame.empty, ← h4, hrows]
        rfl
      rw [hmm.2] at this
      cases this
  · rintro rfl
    exact plotFold_none_errors L [] wl hmem
  · intro files h
    exact plotFold_file_written L [] files wl odf h hmem

theorem C1_export_skips_plot_does_not_witness :
    (∀ s ∈ export_sheets [("488",
        some (⟨["power_percentage_values", "07-25_power", "07-25_error"], []⟩ : DataFrame))],
      s.1 ≠ "488") ∧
    ((some (⟨["power_percentage_values", "07-25_power", "07-25_error"], []⟩ : DataFrame) =
        none) → ∃ e, plot_wavelength_data [("488",
        some (⟨["power_percentage_values", "07-25_power", "07-25_error"], []⟩ : DataFrame))]
        "plots" = Except.error e) ∧
    (∀ files, plot_wavelength_data [("488",
        some (⟨["power_percentage_values", "07-25_power", "07-25_error"], []⟩ : DataFrame))]
        "plots" = Except.ok files → plot_file "plots" "488" ∈ files) :=
  C1_export_skips_plot_does_not _ "plots" "488" _ (by decide) (by decide)
    (Or.inr ⟨_, rfl, rfl⟩)

/-- C1 (counterexample): a pipeline-reachable group whose merge produced
an empty table (a file whose marked region has a header but zero data
rows) is indeed skipped by the exporter, but the plot stage still
renders and writes a chart file for it — contradicting the claim that
no chart is rendered for such a group at the plot stage. -/
theorem C1_counterexample :
    combine_group [("07-25_scan_488.csv",
        (⟨["power_percentage_values", "power", "error"], []⟩ : DataFrame))] =
      Except.ok (some ⟨["power_percentage_values", "07-25_power", "07-25_error"], []⟩) ∧
    export_sheets [("488",
      some (⟨["power_percentage_values", "07-25_power", "07-25_error"], []⟩ : DataFrame))] =
      [] ∧
    plot_wavelength_data [("488",
      some (⟨["power_percentage_values", "07-25_power", "07-25_error"], []⟩ : DataFrame))]
      "plots" = Except.ok ["plots/laser_power_488nm.png"] := by
  decide

/- ### Cell access and column index lemmas (for the merge proof) -/

theorem cellAt_append_left {x y : List Cell} {j : Nat} (h : j < x.length) :
    cellAt j (x ++ y) = cellAt j x := by
  rw [cellAt, cellAt, List.getElem?_append_left h]

theorem cellAt_append_right {x y : List Cell} (j : Nat) :
    cellAt (x.length + j) (x ++ y) = cellAt j y := by
  rw [cellAt, cellAt, List.getElem?_append_right (by omega), Nat.add_sub_cancel_left]

theorem cellAt_replicate_nan (n j : Nat) : cellAt j (List.replicate n Cell.nan) = Cell.nan := by
  rw [cellAt, List.getElem?_replicate]
  split <;> rfl

theorem cellAt_set_ne {l : List Cell} {i j : Nat} {v : Cell} (h : i ≠ j) :
    cellAt j (l.set i v) = cellAt j l := by
  rw [cellAt, cellAt, List.getElem?_set_ne h]

theorem cellAt_set_self {l : List Cell} {i : Nat} {v : Cell} (h : i < l.length) :
    cellAt i (l.set i v) = v := by
  rw [cellAt, List.getElem?_set_self h]
  rfl

theorem cellAt_ge_length {l : List Cell} {j : Nat} (h : l.length ≤ j) :
    cellAt j l = Cell.nan := by
  rw [cellAt, List.getElem?_eq_none h]
  rfl

theorem cellAt_take_of_lt {l : List Cell} {n j : Nat} (h : j < n) :
    cellAt j (l.take n) = cellAt j l := by
  rw [cellAt, cellAt, List.getElem?_take_of_lt h]

/-- List-level column index (first occurrence; list length if absent). -/
def idxOfCol (l : List String) (c : String) : Nat :=
  (l.findIdx? (fun x => x = c)).getD l.length

theorem colIdx_eq_idxOfCol (df : DataFrame) (c : String) :
    colIdx df c = idxOfCol df.cols c := rfl

theorem idxOfCol_spec {l : List String} {c : String} (h : c ∈ l) :
    idxOfCol l c < l.length ∧ l[idxOfCol l c]? = some c := by
  have hs : (l.findIdx? (fun x => x = c)).isSome = true := by
    rw [List.findIdx?_isSome, List.any_eq_true]
    exact ⟨c, h, by simp⟩
  rcases Option.isSome_iff_exists.mp hs with ⟨i, hi⟩
  have hspec := List.findIdx?_eq_some_iff_getElem.mp hi
  rcases hspec with ⟨hlt, hp, -⟩
  have hidx : idxOfCol l c = i := by rw [idxOfCol, hi]; rfl
  refine ⟨by rw [hidx]; exact hlt, ?_⟩
  rw [hidx, List.getElem?_eq_getElem hlt]
  simp only [decide_eq_true_eq] at hp
  rw [hp]

theorem idxOfCol_of_not_mem {l : List String} {c : String} (h : c ∉ l) :
    idxOfCol l c = l.length := by
  rw [idxOfCol, List.findIdx?_eq_none_iff.mpr]
  · rfl
  · intro x hx
    simp only [decide_eq_false_iff_not]
    rintro rfl
    exact h hx

theorem idxOfCol_append_left {l1 l2 : List String} {c : String} (h : c ∈ l1) :
    idxOfCol (l1 ++ l2) c = idxOfCol l1 c := by
  have hs : (l1.findIdx? (fun x => x = c)).isSome = true := by
    rw [List.findIdx?_isSome, List.any_eq_true]
    exact ⟨c, h, by simp⟩
  rcases Option.isSome_iff_exists.mp hs with ⟨i, hi⟩
  rw [idxOfCol, List.findIdx?_append, hi, idxOfCol, hi]
  rfl

theorem idxOfCol_append_right {l1 l2 : List String} {c : String} (h : c ∉ l1) :
    idxOfCol (l1 ++ l2) c = l1.length + idxOfCol l2 c := by
  have hn : l1.findIdx? (fun x => x = c) = none := by
    rw [List.findIdx?_eq_none_iff]
    intro x hx
    simp only [decide_eq_false_iff_not]
    rintro rfl
    exact h hx
  rw [idxOfCol, List.findIdx?_append, hn, Option.none_or]
  cases h2 : l2.findIdx? (fun x => x = c) with
  | none =>
    rw [idxOfCol, h2]
    simp [Nat.add_comm]
  | some j =>
    rw [idxOfCol, h2]
    simp [Nat.add_comm]

theorem idxOfCol_ne_of_entry_ne {l : List String} {c d : String} {i : Nat}
    (hc : c ∈ l) (hi : l[i]? = some d) (hne : c ≠ d) :
    idxOfCol l c ≠ i := by
  intro heq
  rcases idxOfCol_spec hc with ⟨-, hentry⟩
  rw [heq, hi] at hentry
  injection hentry with h'
  exact hne h'.symm

theorem count_pos_mem {l : List String} {c : String} (h : 1 ≤ l.count c) : c ∈ l := by
  by_contra hc
  rw [List.count_eq_zero_of_not_mem hc] at h
  omega

theorem count_eraseIdx_idxOfCol {l : List String} {c : String} (h : l.count c = 1) :
    (l.eraseIdx (idxOfCol l c)).count c = 0 := by
  have hmem : c ∈ l := count_pos_mem (by omega)
  rcases idxOfCol_spec hmem with ⟨hlt, hentry⟩
  rw [List.eraseIdx_eq_take_drop_succ]
  have hdecomp : l = l.take (idxOfCol l c) ++ c :: l.drop (idxOfCol l c + 1) := by
    conv_lhs => rw [← List.take_append_drop (idxOfCol l c) l]
    congr 1
    rw [List.drop_eq_getElem_cons hlt]
    congr 1
    rw [List.getElem?_eq_getElem hlt] at hentry
    injection hentry
  rw [hdecomp] at h
  rw [List.count_append] at h ⊢
  rw [List.count_cons_self] at h
  omega

/- ### Outer-merge characterization (proof-layer views of `merge_outer`) -/

/-- The right-side rows matching a left row's key (`pd.merge` pairing). -/
def matchRows (A D : DataFrame) (r : List Cell) : List (List Cell) :=
  D.rows.filter (fun s => cellEqv (cellAt (colIdx D keyCol) s) (cellAt (colIdx A keyCol) r))

/-- The merged rows contributed by the left frame's rows. -/
def leftJoinRows (A D : DataFrame) : List (List Cell) :=
  A.rows.flatMap (fun r =>
    if (matchRows A D r).isEmpty then
      [r ++ List.replicate ((D.cols.eraseIdx (colIdx D keyCol)).length) Cell.nan]
    else (matchRows A D r).map (fun s => r ++ s.eraseIdx (colIdx D keyCol)))

/-- The merged rows contributed by right rows whose key matches no left key. -/
def rightOnlyRows (A D : DataFrame) : List (List Cell) :=
  (D.rows.filter (fun s =>
      !(A.rows.any (fun r =>
        cellEqv (cellAt (colIdx A keyCol) r) (cellAt (colIdx D keyCol) s))))).map
    (fun s =>
      ((List.replicate A.cols.length Cell.nan).set (colIdx A keyCol)
        (cellAt (colIdx D keyCol) s)) ++ s.eraseIdx (colIdx D keyCol))

theorem merge_outer_no_overlap (A D : DataFrame)
    (h : ∀ c, colOverlaps A D c = false) :
    merge_outer A D =
      ⟨A.cols ++ D.cols.eraseIdx (colIdx D keyCol),
       leftJoinRows A D ++ rightOnlyRows A D⟩ := by
  have hA : A.cols.map (fun c => if colOverlaps A D c then c ++ "_x" else c) = A.cols := by
    have hc : ∀ c ∈ A.cols, (if colOverlaps A D c then c ++ "_x" else c) = c := by
      intro c _
      rw [if_neg (by simp [h c])]
    calc A.cols.map (fun c => if colOverlaps A D c then c ++ "_x" else c)
        = A.cols.map id := List.map_congr_left hc
      _ = A.cols := List.map_id _
  have hD : D.cols.map (fun c => if colOverlaps A D c then c ++ "_y" else c) = D.cols := by
    have hc : ∀ c ∈ D.cols, (if colOverlaps A D c then c ++ "_y" else c) = c := by
      intro c _
      rw [if_neg (by simp [h c])]
    calc D.cols.map (fun c => if colOverlaps A D c then c ++ "_y" else c)
        = D.cols.map id := List.map_congr_left hc
      _ = D.cols := List.map_id _
  rw [merge_outer]
  simp only [hA, hD]
  rfl

theorem colOverlaps_false_of_disj {A D : DataFrame}
    (hdisj : ∀ c ∈ A.cols, c ∈ D.cols → c = keyCol) :
    ∀ c, colOverlaps A D c = false := by
  intro c
  rw [colOverlaps]
  simp only [decide_eq_false_iff_not]
  rintro ⟨hne, hAc, hDc⟩
  exact hne (hdisj c (by simpa using hAc) (by simpa using hDc))

theorem merge_rows_cases {A D : DataFrame} {r : List Cell}
    (hr : r ∈ leftJoinRows A D ++ rightOnlyRows A D) :
    (∃ ra ∈ A.rows, ∃ s ∈ D.rows,
        r = ra ++ s.eraseIdx (colIdx D keyCol) ∧
        cellEqv (cellAt (colIdx D keyCol) s) (cellAt (colIdx A keyCol) ra) = true) ∨
    (∃ ra ∈ A.rows,
        r = ra ++ List.replicate ((D.cols.eraseIdx (colIdx D keyCol)).length) Cell.nan ∧
        ∀ s ∈ D.rows, cellEqv (cellAt (colIdx D keyCol) s) (cellAt (colIdx A keyCol) ra) = false) ∨
    (∃ s ∈ D.rows,
        r = ((List.replicate A.cols.length Cell.nan).set (colIdx A keyCol)
              (cellAt (colIdx D keyCol) s)) ++ s.eraseIdx (colIdx D keyCol) ∧
        ∀ ra ∈ A.rows,
          cellEqv (cellAt (colIdx A keyCol) ra) (cellAt (colIdx D keyCol) s) = false) := by
  rcases List.mem_append.mp hr with hl | hrgt
  · rcases List.mem_flatMap.mp hl with ⟨ra, hra, hmem⟩
    rcases hempty : (matchRows A D ra).isEmpty with _ | _
    · rw [if_neg (by simp [hempty])] at hmem
      rcases List.mem_map.mp hmem with ⟨s, hs, rfl⟩
      rcases List.mem_filter.mp hs with ⟨hsD, hpred⟩
      exact Or.inl ⟨ra, hra, s, hsD, rfl, hpred⟩
    · rw [if_pos (by simp [hempty])] at hmem
      rcases List.mem_singleton.mp hmem with rfl
      refine Or.inr (Or.inl ⟨ra, hra, rfl, ?_⟩)
      intro s hs
      have hnil : matchRows A D ra = [] := List.isEmpty_iff.mp hempty
      have := List.filter_eq_nil_iff.mp hnil s hs
      simpa using this
  · rcases List.mem_map.mp hrgt with ⟨s, hsf, rfl⟩
    rcases List.mem_filter.mp hsf with ⟨hsD, hpred⟩
    refine Or.inr (Or.inr ⟨s, hsD, rfl, ?_⟩)
    intro ra hra
    have hany : (A.rows.any (fun r =>
        cellEqv (cellAt (colIdx A keyCol) r) (cellAt (colIdx D keyCol) s))) = false := by
      rcases hh : A.rows.any (fun r =>
          cellEqv (cellAt (colIdx A keyCol) r) (cellAt (colIdx D keyCol) s)) with _ | _
      · rfl
      · rw [hh] at hpred; cases hpred
    exact Bool.eq_false_iff.mpr (List.any_eq_false.mp hany ra hra)

theorem merge_key_of_left {A : DataFrame} {ra z : List Cell}
    (hAw : ra.length = A.cols.length) (hKA : keyCol ∈ A.cols) :
    cellAt (colIdx A keyCol) (ra ++ z) = cellAt (colIdx A keyCol) ra := by
  have hlt := (idxOfCol_spec hKA).1
  exact cellAt_append_left (by rw [hAw]; exact hlt)

theorem merge_key_of_right {A : DataFrame} {z : List Cell} {v : Cell}
    (hKA : keyCol ∈ A.cols) :
    cellAt (colIdx A keyCol)
      (((List.replicate A.cols.length Cell.nan).set (colIdx A keyCol) v) ++ z) = v := by
  have hlt := (idxOfCol_spec hKA).1
  rw [cellAt_append_left (by simpa using hlt)]
  exact cellAt_set_self (by simpa using hlt)

theorem merge_keys_iff {A D : DataFrame}
    (hAw : ∀ r ∈ A.rows, r.length = A.cols.length)
    (hKA : keyCol ∈ A.cols) (k : Cell) :
    (∃ r ∈ leftJoinRows A D ++ rightOnlyRows A D,
        cellEqv (cellAt (colIdx A keyCol) r) k = true) ↔
    ((∃ ra ∈ A.rows, cellEqv (cellAt (colIdx A keyCol) ra) k = true) ∨
     (∃ s ∈ D.rows, cellEqv (cellAt (colIdx D keyCol) s) k = true)) := by
  constructor
  · rintro ⟨r, hr, hk⟩
    rcases merge_rows_cases hr with
      ⟨ra, hra, s, hs, rfl, heqv⟩ | ⟨ra, hra, rfl, hnone⟩ | ⟨s, hs, rfl, hnone⟩
    · rw [merge_key_of_left (hAw ra hra) hKA] at hk
      exact Or.inl ⟨ra, hra, hk⟩
    · rw [merge_key_of_left (hAw ra hra) hKA] at hk
      exact Or.inl ⟨ra, hra, hk⟩
    · rw [merge_key_of_right hKA] at hk
      exact Or.inr ⟨s, hs, hk⟩
  · rintro (⟨ra, hra, hk⟩ | ⟨s, hs, hk⟩)
    · rcases hempty : (matchRows A D ra).isEmpty with _ | _
      · rcases hm : matchRows A D ra with _ | ⟨s0, t⟩
        · rw [hm] at hempty; cases hempty
        · refine ⟨ra ++ s0.eraseIdx (colIdx D keyCol), ?_, ?_⟩
          · refine List.mem_append_left _ (List.mem_flatMap.mpr ⟨ra, hra, ?_⟩)
            rw [if_neg (by simp [hempty])]
            exact List.mem_map_of_mem _ (by rw [hm]; exact List.mem_cons_self _ _)
          · rw [merge_key_of_left (hAw ra hra) hKA]
            exact hk
      · refine ⟨ra ++ List.replicate ((D.cols.eraseIdx (colIdx D keyCol)).length) Cell.nan,
          ?_, ?_⟩
        · refine List.mem_append_left _ (List.mem_flatMap.mpr ⟨ra, hra, ?_⟩)
          rw [if_pos (by simp [hempty])]
          exact List.mem_singleton.mpr rfl
        · rw [merge_key_of_left (hAw ra hra) hKA]
          exact hk
    · rcases hany : A.rows.any (fun r =>
          cellEqv (cellAt (colIdx A keyCol) r) (cellAt (colIdx D keyCol) s)) with _ | _
      · refine ⟨((List.replicate A.cols.length Cell.nan).set (colIdx A keyCol)
            (cellAt (colIdx D keyCol) s)) ++ s.eraseIdx (colIdx D keyCol), ?_, ?_⟩
        · refine List.mem_append_right _ ?_
          refine List.mem_map_of_mem _ (List.mem_filter.mpr ⟨hs, by rw [hany]; rfl⟩)
        · rw [merge_key_of_right hKA]
          exact hk
      · rcases List.any_eq_true.mp hany with ⟨ra, hra, heqv⟩
        have hmem : s ∈ matchRows A D ra :=
          List.mem_filter.mpr ⟨hs, cellEqv_symm heqv⟩
        have hne : (matchRows A D ra).isEmpty = false := by
          rcases hmm : matchRows A D ra with _ | _
          · rw [hmm] at hmem; cases hmem
          · rfl
        refine ⟨ra ++ s.eraseIdx (colIdx D keyCol), ?_, ?_⟩
        · refine List.mem_append_left _ (List.mem_flatMap.mpr ⟨ra, hra, ?_⟩)
          rw [if_neg (by simp [hne])]
          exact List.mem_map_of_mem _ hmem
        · rw [merge_key_of_left (hAw ra hra) hKA]
          exact cellEqv_trans heqv hk

theorem merge_wf {A D : DataFrame}
    (hAw : ∀ r ∈ A.rows, r.length = A.cols.length)
    (hDw : ∀ r ∈ D.rows, r.length = D.cols.length)
    (hKD : keyCol ∈ D.cols) :
    ∀ r ∈ leftJoinRows A D ++ rightOnlyRows A D,
      r.length = (A.cols ++ D.cols.eraseIdx (colIdx D keyCol)).length := by
  intro r hr
  rw [colIdx_eq_idxOfCol]
  have hri : idxOfCol D.cols keyCol < D.cols.length := (idxOfCol_spec hKD).1
  rcases merge_rows_cases hr with
    ⟨ra, hra, s, hs, rfl, -⟩ | ⟨ra, hra, rfl, -⟩ | ⟨s, hs, rfl, -⟩
  · rw [List.length_append, List.length_append, hAw ra hra, colIdx_eq_idxOfCol,
      List.length_eraseIdx_of_lt (by rw [hDw s hs]; exact hri),
      List.length_eraseIdx_of_lt hri, hDw s hs]
  · rw [List.length_append, List.length_append, hAw ra hra, List.length_replicate,
      colIdx_eq_idxOfCol]
  · rw [List.length_append, List.length_append, List.length_set, List.length_replicate,
      colIdx_eq_idxOfCol,
      List.length_eraseIdx_of_lt (by rw [hDw s hs]; exact hri),
      List.length_eraseIdx_of_lt hri, hDw s hs]

theorem merge_count_key {A D : DataFrame}
    (hAk : A.cols.count keyCol = 1) (hDk : D.cols.count keyCol = 1) :
    (A.cols ++ D.cols.eraseIdx (colIdx D keyCol)).count keyCol = 1 := by
  rw [colIdx_eq_idxOfCol, List.count_append, hAk, count_eraseIdx_idxOfCol hDk]

theorem mem_eraseIdx_of_entry_ne {l : List String} {c d : String} {i : Nat}
    (hc : c ∈ l) (hi : l[i]? = some d) (hne : c ≠ d) : c ∈ l.eraseIdx i := by
  have hlt : i < l.length := by
    by_contra hge
    rw [List.getElem?_eq_none (by omega)] at hi
    cases hi
  have hdecomp : l = l.take i ++ d :: l.drop (i + 1) := by
    conv_lhs => rw [← List.take_append_drop i l]
    congr 1
    rw [List.drop_eq_getElem_cons hlt]
    congr 1
    rw [List.getElem?_eq_getElem hlt] at hi
    injection hi
  rw [List.eraseIdx_eq_take_drop_succ]
  conv_lhs at hc => rw [hdecomp]
  rcases List.mem_append.mp hc with h1 | h2
  · exact List.mem_append_left _ h1
  · rcases List.mem_cons.mp h2 with rfl | h3
    · exact absurd rfl hne
    · exact List.mem_append_right _ h3

/-- The non-key columns of a frame. -/
def nonKeyCols (df : DataFrame) : List String :=
  df.cols.filter (fun c => ¬ (c = keyCol))

theorem eraseIdx_key_eq_filter {l : List String} (h : l.count keyCol = 1) :
    l.eraseIdx (idxOfCol l keyCol) = l.filter (fun c => ¬ (c = keyCol)) := by
  have hmem : keyCol ∈ l := count_pos_mem (by omega)
  rcases idxOfCol_spec hmem with ⟨hlt, hentry⟩
  have hdecomp : l = l.take (idxOfCol l keyCol) ++ keyCol :: l.drop (idxOfCol l keyCol + 1) := by
    conv_lhs => rw [← List.take_append_drop (idxOfCol l keyCol) l]
    congr 1
    rw [List.drop_eq_getElem_cons hlt]
    congr 1
    rw [List.getElem?_eq_getElem hlt] at hentry
    injection hentry
  have hcount0 : (l.take (idxOfCol l keyCol)).count keyCol = 0 ∧
      (l.drop (idxOfCol l keyCol + 1)).count keyCol = 0 := by
    have h' := h
    conv_lhs at h' => rw [hdecomp]
    rw [List.count_append, List.count_cons_self] at h'
    omega
  have h1 : keyCol ∉ l.take (idxOfCol l keyCol) := List.count_eq_zero.mp hcount0.1
  have h2 : keyCol ∉ l.drop (idxOfCol l keyCol + 1) := List.count_eq_zero.mp hcount0.2
  rw [List.eraseIdx_eq_take_drop_succ]
  conv_rhs => rw [hdecomp]
  rw [List.filter_append]
  congr 1
  · symm
    rw [List.filter_eq_self]
    intro a ha
    have hane : a ≠ keyCol := fun heq => h1 (heq ▸ ha)
    simp [hane]
  · rw [List.filter_cons_of_neg (by simp)]
    symm
    rw [List.filter_eq_self]
    intro a ha
    have hane : a ≠ keyCol := fun heq => h2 (heq ▸ ha)
    simp [hane]

/- ### Rename translation lemmas -/

theorem findIdx?_congr_mem {α : Type} {p q : α → Bool} :
    ∀ (l : List α) (i : Nat), (∀ a ∈ l, p a = q a) → l.findIdx? p i = l.findIdx? q i := by
  intro l
  induction l with
  | nil => intro i _; rfl
  | cons a as ih =>
    intro i h
    rw [List.findIdx?_cons, List.findIdx?_cons, h a (List.mem_cons_self _ _)]
    split
    · rfl
    · exact ih (i + 1) (fun b hb => h b (List.mem_cons_of_mem _ hb))

/-- The renamed view of one group element. -/
def renamed (e : String × DataFrame) : DataFrame :=
  rename_by_date (date_of e.1) e.2

theorem renamed_cols (e : String × DataFrame) :
    (renamed e).cols =
      e.2.cols.map (fun c => if c = keyCol then c else date_of e.1 ++ "_" ++ c) := rfl

theorem renamed_rows (e : String × DataFrame) : (renamed e).rows = e.2.rows := rfl

theorem rename_count (cols : List String) (d : String)
    (h2 : ∀ c ∈ cols, c ≠ keyCol → ¬(d ++ "_" ++ c = keyCol)) :
    (cols.map (fun c => if c = keyCol then c else d ++ "_" ++ c)).count keyCol =
      cols.count keyCol := by
  induction cols with
  | nil => rfl
  | cons c cs ih =>
    rw [List.map_cons]
    by_cases hc : c = keyCol
    · subst hc
      rw [if_pos rfl, List.count_cons_self, List.count_cons_self,
        ih (fun b hb => h2 b (List.mem_cons_of_mem _ hb))]
    · rw [if_neg hc,
        List.count_cons_of_ne (fun h => (h2 c (List.mem_cons_self _ _) hc) h.symm),
        List.count_cons_of_ne (fun h => hc h.symm),
        ih (fun b hb => h2 b (List.mem_cons_of_mem _ hb))]

theorem rename_colIdx (cols : List String) (d : String)
    (h2 : ∀ c ∈ cols, c ≠ keyCol → ¬(d ++ "_" ++ c = keyCol)) :
    idxOfCol (cols.map (fun c => if c = keyCol then c else d ++ "_" ++ c)) keyCol =
      idxOfCol cols keyCol := by
  rw [idxOfCol, idxOfCol, List.findIdx?_map]
  have hpt : ∀ c ∈ cols,
      ((fun x => decide (x = keyCol)) ∘ (fun c => if c = keyCol then c else d ++ "_" ++ c)) c =
        decide (c = keyCol) := by
    intro c hc
    by_cases h : c = keyCol
    · subst h
      simp
    · simp only [Function.comp_apply, if_neg h]
      rw [decide_eq_false (h2 c hc h), decide_eq_false h]
  rw [findIdx?_congr_mem cols 0 hpt, List.length_map]

/-- A row's key-value occurs in the frame (up to value equality). -/
def keyEx (df : DataFrame) (k : Cell) : Prop :=
  ∃ r ∈ df.rows, cellEqv (cellAt (colIdx df keyCol) r) k = true

theorem renamed_keyEx_iff (e : String × DataFrame)
    (h2 : ∀ c ∈ e.2.cols, c ≠ keyCol → ¬(date_of e.1 ++ "_" ++ c = keyCol)) (k : Cell) :
    keyEx (renamed e) k ↔ keyEx e.2 k := by
  have hidx : colIdx (renamed e) keyCol = colIdx e.2 keyCol := by
    rw [colIdx_eq_idxOfCol, colIdx_eq_idxOfCol, renamed_cols]
    exact rename_colIdx _ _ h2
  rw [keyEx, keyEx, hidx, renamed_rows]

theorem renamed_count (e : String × DataFrame)
    (h1 : e.2.cols.count keyCol = 1)
    (h2 : ∀ c ∈ e.2.cols, c ≠ keyCol → ¬(date_of e.1 ++ "_" ++ c = keyCol)) :
    (renamed e).cols.count keyCol = 1 := by
  rw [renamed_cols, rename_count _ _ h2, h1]

theorem renamed_mem_nonKeyCols (e : String × DataFrame) {c : String}
    (hc : c ∈ e.2.cols) (hne : c ≠ keyCol)
    (h2 : ∀ c ∈ e.2.cols, c ≠ keyCol → ¬(date_of e.1 ++ "_" ++ c = keyCol)) :
    (date_of e.1 ++ "_" ++ c) ∈ nonKeyCols (renamed e) := by
  rw [nonKeyCols, List.mem_filter]
  constructor
  · rw [renamed_cols]
    have : (date_of e.1 ++ "_" ++ c) = (if c = keyCol then c else date_of e.1 ++ "_" ++ c) := by
      rw [if_neg hne]
    rw [this]
    exact List.mem_map_of_mem _ hc
  · simp only [decide_not, Bool.not_eq_false']
    rw [decide_eq_false (h2 c hc hne)]
    rfl

/- ### Fold invariant for the join sequence -/

/-- Invariant of the accumulated frame after folding the group elements
`done` into the outer-join: the key column occurs once; rows are
rectangular; the key values are exactly the union of the inputs' key
values; every input's non-key (renamed) column is a column of the
accumulator; and a row whose key value does not occur in an input has
`NaN` in all of that input's columns. -/
def MergeInv (A : DataFrame) (done : List (String × DataFrame)) : Prop :=
  A.cols.count keyCol = 1 ∧
  (∀ r ∈ A.rows, r.length = A.cols.length) ∧
  (∀ k, keyEx A k ↔ ∃ e ∈ done, keyEx (renamed e) k) ∧
  (∀ e ∈ done, ∀ c ∈ nonKeyCols (renamed e), c ∈ A.cols) ∧
  (∀ e ∈ done, ∀ c ∈ nonKeyCols (renamed e), ∀ r ∈ A.rows,
    (∀ rd ∈ (renamed e).rows,
      cellEqv (cellAt (colIdx (renamed e) keyCol) rd) (cellAt (colIdx A keyCol) r) = false) →
    cellAt (colIdx A c) r = Cell.nan)

theorem Inv_base (e : String × DataFrame)
    (hk : (renamed e).cols.count keyCol = 1)
    (hw : ∀ r ∈ (renamed e).rows, r.length = (renamed e).cols.length) :
    MergeInv (renamed e) [e] := by
  refine ⟨hk, hw, ?_, ?_, ?_⟩
  · intro k
    constructor
    · intro h
      exact ⟨e, List.mem_singleton.mpr rfl, h⟩
    · rintro ⟨e', he', h⟩
      rw [List.mem_singleton.mp he'] at h
      exact h
  · intro e' he' c hc
    rw [List.mem_singleton.mp he'] at hc
    exact List.mem_of_mem_filter hc
  · intro e' he' c hc r hr hno
    rw [List.mem_singleton.mp he'] at hno
    exact absurd (cellEqv_refl (cellAt (colIdx (renamed e) keyCol) r)) (by simp [hno r hr])

theorem merge_step_inv (A : DataFrame) (e : String × DataFrame)
    (done : List (String × DataFrame))
    (hInv : MergeInv A done)
    (hDk : (renamed e).cols.count keyCol = 1)
    (hDw : ∀ r ∈ (renamed e).rows, r.length = (renamed e).cols.length)
    (hdisj : ∀ c ∈ A.cols, c ∈ (renamed e).cols → c = keyCol) :
    MergeInv (merge_outer A (renamed e)) (done ++ [e]) := by
  obtain ⟨hAk, hAw, hAx, hAc, hAn⟩ := hInv
  have hKA : keyCol ∈ A.cols := count_pos_mem (by omega)
  have hKD : keyCol ∈ (renamed e).cols := count_pos_mem (by omega)
  have hliA : idxOfCol A.cols keyCol < A.cols.length := (idxOfCol_spec hKA).1
  have hmerge := merge_outer_no_overlap A (renamed e) (colOverlaps_false_of_disj hdisj)
  rw [hmerge]
  have hEcols : (⟨A.cols ++ (renamed e).cols.eraseIdx (colIdx (renamed e) keyCol),
      leftJoinRows A (renamed e) ++ rightOnlyRows A (renamed e)⟩ : DataFrame).cols =
      A.cols ++ (renamed e).cols.eraseIdx (colIdx (renamed e) keyCol) := rfl
  have hidxE : idxOfCol (A.cols ++ (renamed e).cols.eraseIdx (colIdx (renamed e) keyCol))
      keyCol = idxOfCol A.cols keyCol := idxOfCol_append_left hKA
  refine ⟨?_, ?_, ?_, ?_, ?_⟩
  · exact merge_count_key hAk hDk
  · exact merge_wf hAw hDw hKD
  · intro k
    have h1 : keyEx (⟨A.cols ++ (renamed e).cols.eraseIdx (colIdx (renamed e) keyCol),
        leftJoinRows A (renamed e) ++ rightOnlyRows A (renamed e)⟩ : DataFrame) k ↔
        ((∃ ra ∈ A.rows, cellEqv (cellAt (colIdx A keyCol) ra) k = true) ∨
         (∃ s ∈ (renamed e).rows,
            cellEqv (cellAt (colIdx (renamed e) keyCol) s) k = true)) := by
      rw [keyEx]
      have : colIdx (⟨A.cols ++ (renamed e).cols.eraseIdx (colIdx (renamed e) keyCol),
          leftJoinRows A (renamed e) ++ rightOnlyRows A (renamed e)⟩ : DataFrame) keyCol =
          colIdx A keyCol := hidxE
      rw [this]
      exact merge_keys_iff hAw hKA k
    rw [h1]
    constructor
    · rintro (h | h)
      · rcases (hAx k).mp h with ⟨e', he', hx⟩
        exact ⟨e', List.mem_append_left _ he', hx⟩
      · exact ⟨e, List.mem_append_right _ (List.mem_singleton.mpr rfl), h⟩
    · rintro ⟨e', he', hx⟩
      rcases List.mem_append.mp he' with hd | hs
      · exact Or.inl ((hAx k).mpr ⟨e', hd, hx⟩)
      · rw [List.mem_singleton.mp hs] at hx
        exact Or.inr hx
  · intro e' he' c hc
    rcases List.mem_append.mp he' with hd | hs
    · exact List.mem_append_left _ (hAc e' hd c hc)
    · rw [List.mem_singleton.mp hs] at hc
      rcases List.mem_filter.mp hc with ⟨hcD, hcne⟩
      have hcnek : c ≠ keyCol := by
        intro heq
        rw [heq] at hcne
        simp at hcne
      refine List.mem_append_right _ ?_
      rw [colIdx_eq_idxOfCol]
      exact mem_eraseIdx_of_entry_ne hcD (idxOfCol_spec hKD).2 hcnek
  · intro e' he' c hc r hr hno
    have hkeyr : cellAt (colIdx (⟨A.cols ++
        (renamed e).cols.eraseIdx (colIdx (renamed e) keyCol),
        leftJoinRows A (renamed e) ++ rightOnlyRows A (renamed e)⟩ : DataFrame) keyCol) r =
        cellAt (colIdx A keyCol) r := by
      have : colIdx (⟨A.cols ++ (renamed e).cols.eraseIdx (colIdx (renamed e) keyCol),
          leftJoinRows A (renamed e) ++ rightOnlyRows A (renamed e)⟩ : DataFrame) keyCol =
          colIdx A keyCol := hidxE
      rw [this]
    rw [hkeyr] at hno
    rcases List.mem_append.mp he' with hd | hs
    · -- column of a previously merged input: it sits inside the A-part
      have hcA : c ∈ A.cols := hAc e' hd c hc
      have hidxc : colIdx (⟨A.cols ++
          (renamed e).cols.eraseIdx (colIdx (renamed e) keyCol),
          leftJoinRows A (renamed e) ++ rightOnlyRows A (renamed e)⟩ : DataFrame) c =
          colIdx A c := idxOfCol_append_left hcA
      rw [hidxc]
      have hcltA : idxOfCol A.cols c < A.cols.length := (idxOfCol_spec hcA).1
      have hcnek : c ≠ keyCol := by
        rcases List.mem_filter.mp hc with ⟨-, hcne⟩
        intro heq
        rw [heq] at hcne
        simp at hcne
      rcases merge_rows_cases hr with
        ⟨ra, hra, s, hs', rfl, heqv⟩ | ⟨ra, hra, rfl, hnone⟩ | ⟨s, hs', rfl, hnone⟩
      · rw [merge_key_of_left (hAw ra hra) hKA] at hno
        rw [cellAt_append_left (by rw [hAw ra hra]; exact hcltA)]
        exact hAn e' hd c hc ra hra hno
      · rw [merge_key_of_left (hAw ra hra) hKA] at hno
        rw [cellAt_append_left (by rw [hAw ra hra]; exact hcltA)]
        exact hAn e' hd c hc ra hra hno
      · rw [cellAt_append_left (by simpa using hcltA)]
        rw [cellAt_set_ne]
        · exact cellAt_replicate_nan _ _
        · exact fun heq =>
            (idxOfCol_ne_of_entry_ne hcA (idxOfCol_spec hKA).2 hcnek) heq.symm
    · -- column of the new input: either its key matches (vacuous) or all-NaN
      have he2 : e = e' := (List.mem_singleton.mp hs).symm
      subst he2
      rcases List.mem_filter.mp hc with ⟨hcD, hcne⟩
      have hcnek : c ≠ keyCol := by
        intro heq
        rw [heq] at hcne
        simp at hcne
      have hcnotA : c ∉ A.cols := by
        intro hmemA
        exact hcnek (hdisj c hmemA hcD)
      have hidxc : idxOfCol (A.cols ++
          (renamed e).cols.eraseIdx (colIdx (renamed e) keyCol)) c =
          A.cols.length + idxOfCol ((renamed e).cols.eraseIdx (colIdx (renamed e) keyCol)) c :=
        idxOfCol_append_right hcnotA
      rcases merge_rows_cases hr with
        ⟨ra, hra, s, hs', rfl, heqv⟩ | ⟨ra, hra, rfl, hnone⟩ | ⟨s, hs', rfl, hnone⟩
      · exfalso
        rw [merge_key_of_left (hAw ra hra) hKA] at hno
        rw [hno s hs'] at heqv
        cases heqv
      · have hxlen : ra.length = A.cols.length := hAw ra hra
        rw [colIdx_eq_idxOfCol, hidxc, ← hxlen, cellAt_append_right]
        exact cellAt_replicate_nan _ _
      · exfalso
        rw [merge_key_of_right hKA] at hno
        exact absurd (cellEqv_refl (cellAt (colIdx (renamed e) keyCol) s))
          (by simp [hno s hs'])

theorem combineFold_inv :
    ∀ (rest : List (String × DataFrame)) (A : DataFrame) (done : List (String × DataFrame)),
      MergeInv A done →
      (∀ e ∈ rest, (renamed e).cols.count keyCol = 1) →
      (∀ e ∈ rest, ∀ r ∈ (renamed e).rows, r.length = (renamed e).cols.length) →
      (A.cols ++ (rest.map (fun e => nonKeyCols (renamed e))).flatten).Nodup →
      ∃ B, combineFold (some A) rest = Except.ok (some B) ∧ MergeInv B (done ++ rest) := by
  intro rest
  induction rest with
  | nil =>
    intro A done hInv _ _ _
    exact ⟨A, rfl, by simpa using hInv⟩
  | cons e rest' ih =>
    intro A done hInv hk hw hnd
    obtain ⟨fn, fdf⟩ := e
    have hAk : A.cols.count keyCol = 1 := hInv.1
    have hKA : keyCol ∈ A.cols := count_pos_mem (by omega)
    have hDk1 : (renamed (fn, fdf)).cols.count keyCol = 1 := hk _ (List.mem_cons_self _ _)
    have hKD : keyCol ∈ (renamed (fn, fdf)).cols := count_pos_mem (by omega)
    have hnd' : (A.cols ++ (nonKeyCols (renamed (fn, fdf)) ++
        (rest'.map (fun e => nonKeyCols (renamed e))).flatten)).Nodup := by
      rw [List.map_cons, List.flatten_cons] at hnd
      exact hnd
    have hdisjAD : A.cols.Disjoint (nonKeyCols (renamed (fn, fdf)) ++
        (rest'.map (fun e => nonKeyCols (renamed e))).flatten) :=
      (List.nodup_append.mp hnd').2.2
    have hdisj : ∀ c ∈ A.cols, c ∈ (renamed (fn, fdf)).cols → c = keyCol := by
      intro c hcA hcD
      by_contra hne
      refine hdisjAD hcA (List.mem_append_left _ ?_)
      rw [nonKeyCols, List.mem_filter]
      exact ⟨hcD, by simp [hne]⟩
    have hstep := merge_step_inv A (fn, fdf) done hInv hDk1
      (hw _ (List.mem_cons_self _ _)) hdisj
    have hmergecols : (merge_outer A (renamed (fn, fdf))).cols =
        A.cols ++ (renamed (fn, fdf)).cols.eraseIdx (colIdx (renamed (fn, fdf)) keyCol) := by
      rw [merge_outer_no_overlap A (renamed (fn, fdf)) (colOverlaps_false_of_disj hdisj)]
    have hndnew : ((merge_outer A (renamed (fn, fdf))).cols ++
        (rest'.map (fun e => nonKeyCols (renamed e))).flatten).Nodup := by
      rw [hmergecols, colIdx_eq_idxOfCol, eraseIdx_key_eq_filter hDk1, List.append_assoc]
      exact hnd'
    rcases ih (merge_outer A (renamed (fn, fdf))) (done ++ [(fn, fdf)]) hstep
      (fun e he => hk e (List.mem_cons_of_mem _ he))
      (fun e he => hw e (List.mem_cons_of_mem _ he)) hndnew with ⟨B, hB, hInvB⟩
    refine ⟨B, ?_, ?_⟩
    · rw [combineFold]
      have hcond : (hasCol A keyCol && hasCol (rename_by_date (date_of fn) fdf) keyCol)
          = true := by
        rw [Bool.and_eq_true]
        constructor
        · rw [hasCol]
          simpa using hKA
        · rw [hasCol]
          simpa using hKD
      rw [if_pos (by simp [hcond])]
      exact hB
    · have : done ++ (fn, fdf) :: rest' = (done ++ [(fn, fdf)]) ++ rest' := by
        rw [List.append_assoc]
        rfl
      rw [this]
      exact hInvB

/-- C3: for a group of tables each carrying the join key column (once,
with label-renaming colliding neither with the key nor with any other
column), the merged table's key values are exactly the union of the
inputs' key values — a key value present in some input is never
dropped — there is at most one row per key value, and a row whose key
value is absent from an input has `NaN` in every one of that input's
(renamed) columns. -/
theorem C3_outer_join_union (g0 : String × DataFrame) (tl : List (String × DataFrame))
    (hkey1 : ∀ e ∈ g0 :: tl, e.2.cols.count keyCol = 1)
    (hnocoll : ∀ e ∈ g0 :: tl, ∀ c ∈ e.2.cols, c ≠ keyCol →
      ¬(date_of e.1 ++ "_" ++ c = keyCol))
    (hwf : ∀ e ∈ g0 :: tl, ∀ r ∈ e.2.rows, r.length = e.2.cols.length)
    (hnodup : ((renamed g0).cols ++
      (tl.map (fun e => nonKeyCols (renamed e))).flatten).Nodup) :
    ∃ M, combine_group (g0 :: tl) = Except.ok (some M) ∧
      (∀ k, (∃ r ∈ M.rows, cellEqv (cellAt (colIdx M keyCol) r) k = true) ↔
        (∃ e ∈ g0 :: tl, ∃ rd ∈ e.2.rows,
          cellEqv (cellAt (colIdx e.2 keyCol) rd) k = true)) ∧
      M.rows.Pairwise (fun r s =>
        cellEqv (cellAt (colIdx M keyCol) r) (cellAt (colIdx M keyCol) s) = false) ∧
      (∀ e ∈ g0 :: tl, ∀ c ∈ e.2.cols, c ≠ keyCol → ∀ r ∈ M.rows,
        (∀ rd ∈ e.2.rows,
          cellEqv (cellAt (colIdx e.2 keyCol) rd) (cellAt (colIdx M keyCol) r) = false) →
        cellAt (colIdx M (date_of e.1 ++ "_" ++ c)) r = Cell.nan) := by
  have hrk : ∀ e ∈ g0 :: tl, (renamed e).cols.count keyCol = 1 :=
    fun e he => renamed_count e (hkey1 e he) (hnocoll e he)
  have hrw : ∀ e ∈ g0 :: tl, ∀ r ∈ (renamed e).rows, r.length = (renamed e).cols.length := by
    intro e he r hr
    rw [renamed_rows] at hr
    rw [renamed_cols, List.length_map]
    exact hwf e he r hr
  have hbase : MergeInv (renamed g0) [g0] :=
    Inv_base g0 (hrk g0 (List.mem_cons_self _ _)) (hrw g0 (List.mem_cons_self _ _))
  rcases combineFold_inv tl (renamed g0) [g0] hbase
    (fun e he => hrk e (List.mem_cons_of_mem _ he))
    (fun e he => hrw e (List.mem_cons_of_mem _ he)) hnodup with ⟨B, hB, hInvB⟩
  have hInvB' : MergeInv B (g0 :: tl) := by
    have : [g0] ++ tl = g0 :: tl := rfl
    rw [this] at hInvB
    exact hInvB
  obtain ⟨fn0, df0⟩ := g0
  have hfold : combineFold none ((fn0, df0) :: tl) = Except.ok (some B) := by
    rw [show combineFold none ((fn0, df0) :: tl) =
      combineFold (some (renamed (fn0, df0))) tl from rfl]
    exact hB
  obtain ⟨hBk, hBw, hBx, hBc, hBn⟩ := hInvB'
  have hKB : keyCol ∈ B.cols := count_pos_mem (by omega)
  have hM : combine_group ((fn0, df0) :: tl) =
      Except.ok (some (sort_values (drop_duplicates B))) := by
    rw [combine_group, hfold]
    dsimp only
    rw [if_pos (by rw [hasCol]; simpa using hKB)]
  have hMidxkey : colIdx (sort_values (drop_duplicates B)) keyCol = colIdx B keyCol := rfl
  have hMsub : ∀ r ∈ (sort_values (drop_duplicates B)).rows, r ∈ B.rows := by
    intro r hr
    have h1 : r ∈ (drop_duplicates B).rows :=
      (sort_values_perm (drop_duplicates B)).mem_iff.mp hr
    exact (dedupByKey_sublist _ B.rows []).mem h1
  refine ⟨sort_values (drop_duplicates B), hM, ?_, ?_, ?_⟩
  · intro k
    have hMB : (∃ r ∈ (sort_values (drop_duplicates B)).rows,
        cellEqv (cellAt (colIdx B keyCol) r) k = true) ↔
        (∃ r ∈ B.rows, cellEqv (cellAt (colIdx B keyCol) r) k = true) := by
      constructor
      · rintro ⟨r, hr, hk⟩
        exact ⟨r, hMsub r hr, hk⟩
      · rintro ⟨r, hr, hk⟩
        rcases dedupByKey_key_preserved (colIdx B keyCol) B.rows [] k
            ⟨r, hr, hk⟩ (by intro c hc; cases hc) with ⟨r', hr', hrk⟩
        exact ⟨r', (sort_values_perm (drop_duplicates B)).mem_iff.mpr hr', hrk⟩
    rw [hMidxkey, hMB]
    have hX := hBx k
    rw [keyEx] at hX
    rw [hX]
    constructor
    · rintro ⟨e, he, hx⟩
      exact ⟨e, he, (renamed_keyEx_iff e (hnocoll e he) k).mp hx⟩
    · rintro ⟨e, he, hx⟩
      exact ⟨e, he, (renamed_keyEx_iff e (hnocoll e he) k).mpr hx⟩
  · have hded := dedupByKey_pairwise (colIdx B keyCol) B.rows []
    have hperm : (sort_values (drop_duplicates B)).rows.Perm
        (dedupByKey (colIdx B keyCol) B.rows []) := sort_values_perm (drop_duplicates B)
    exact (hperm.pairwise_iff (fun h => cellEqv_false_symm h)).mpr hded
  · intro e he c hc hcne r hr hno
    have hcren : (date_of e.1 ++ "_" ++ c) ∈ nonKeyCols (renamed e) :=
      renamed_mem_nonKeyCols e hc hcne (hnocoll e he)
    have hidxren : colIdx (renamed e) keyCol = colIdx e.2 keyCol := by
      rw [colIdx_eq_idxOfCol, colIdx_eq_idxOfCol, renamed_cols]
      exact rename_colIdx _ _ (hnocoll e he)
    have hno' : ∀ rd ∈ (renamed e).rows,
        cellEqv (cellAt (colIdx (renamed e) keyCol) rd)
          (cellAt (colIdx B keyCol) r) = false := by
      intro rd hrd
      rw [hidxren, renamed_rows] at *
      exact hno rd hrd
    exact hBn e he _ hcren r (hMsub r hr) hno'

theorem C3_outer_join_union_witness :
    ∃ M, combine_group
        (("07-25_scan_488.csv",
          (⟨["power_percentage_values", "power", "error"],
            [[Cell.num ⟨10, 0⟩, Cell.num ⟨1, 0⟩, Cell.num ⟨1, 2⟩],
             [Cell.num ⟨20, 0⟩, Cell.num ⟨2, 0⟩, Cell.num ⟨1, 2⟩],
             [Cell.num ⟨30, 0⟩, Cell.num ⟨3, 0⟩, Cell.num ⟨1, 2⟩]]⟩ : DataFrame)) ::
         [("08-10_scan_488.csv",
          (⟨["power_percentage_values", "power", "error"],
            [[Cell.num ⟨20, 0⟩, Cell.num ⟨21, 1⟩, Cell.num ⟨2, 2⟩],
             [Cell.num ⟨30, 0⟩, Cell.num ⟨31, 1⟩, Cell.num ⟨2, 2⟩],
             [Cell.num ⟨40, 0⟩, Cell.num ⟨41, 1⟩, Cell.num ⟨2, 2⟩]]⟩ : DataFrame))]) =
        Except.ok (some M) ∧
      (∀ k, (∃ r ∈ M.rows, cellEqv (cellAt (colIdx M keyCol) r) k = true) ↔
        (∃ e ∈ ("07-25_scan_488.csv",
          (⟨["power_percentage_values", "power", "error"],
            [[Cell.num ⟨10, 0⟩, Cell.num ⟨1, 0⟩, Cell.num ⟨1, 2⟩],
             [Cell.num ⟨20, 0⟩, Cell.num ⟨2, 0⟩, Cell.num ⟨1, 2⟩],
             [Cell.num ⟨30, 0⟩, Cell.num ⟨3, 0⟩, Cell.num ⟨1, 2⟩]]⟩ : DataFrame)) ::
         [("08-10_scan_488.csv",
          (⟨["power_percentage_values", "power", "error"],
            [[Cell.num ⟨20, 0⟩, Cell.num ⟨21, 1⟩, Cell.num ⟨2, 2⟩],
             [Cell.num ⟨30, 0⟩, Cell.num ⟨31, 1⟩, Cell.num ⟨2, 2⟩],
             [Cell.num ⟨40, 0⟩, Cell.num ⟨41, 1⟩, Cell.num ⟨2, 2⟩]]⟩ : DataFrame))],
          ∃ rd ∈ e.2.rows, cellEqv (cellAt (colIdx e.2 keyCol) rd) k = true)) ∧
      M.rows.Pairwise (fun r s =>
        cellEqv (cellAt (colIdx M keyCol) r) (cellAt (colIdx M keyCol) s) = false) ∧
      (∀ e ∈ ("07-25_scan_488.csv",
          (⟨["power_percentage_values", "power", "error"],
            [[Cell.num ⟨10, 0⟩, Cell.num ⟨1, 0⟩, Cell.num ⟨1, 2⟩],
             [Cell.num ⟨20, 0⟩, Cell.num ⟨2, 0⟩, Cell.num ⟨1, 2⟩],
             [Cell.num ⟨30, 0⟩, Cell.num ⟨3, 0⟩, Cell.num ⟨1, 2⟩]]⟩ : DataFrame)) ::
         [("08-10_scan_488.csv",
          (⟨["power_percentage_values", "power", "error"],
            [[Cell.num ⟨20, 0⟩, Cell.num ⟨21, 1⟩, Cell.num ⟨2, 2⟩],
             [Cell.num ⟨30, 0⟩, Cell.num ⟨31, 1⟩, Cell.num ⟨2, 2⟩],
             [Cell.num ⟨40, 0⟩, Cell.num ⟨41, 1⟩, Cell.num ⟨2, 2⟩]]⟩ : DataFrame))],
        ∀ c ∈ e.2.cols, c ≠ keyCol → ∀ r ∈ M.rows,
        (∀ rd ∈ e.2.rows,
          cellEqv (cellAt (colIdx e.2 keyCol) rd) (cellAt (colIdx M keyCol) r) = false) →
        cellAt (colIdx M (date_of e.1 ++ "_" ++ c)) r = Cell.nan) :=
  C3_outer_join_union
    ("07-25_scan_488.csv",
      (⟨["power_percentage_values", "power", "error"],
        [[Cell.num ⟨10, 0⟩, Cell.num ⟨1, 0⟩, Cell.num ⟨1, 2⟩],
         [Cell.num ⟨20, 0⟩, Cell.num ⟨2, 0⟩, Cell.num ⟨1, 2⟩],
         [Cell.num ⟨30, 0⟩, Cell.num ⟨3, 0⟩, Cell.num ⟨1, 2⟩]]⟩ : DataFrame))
    [("08-10_scan_488.csv",
      (⟨["power_percentage_values", "power", "error"],
        [[Cell.num ⟨20, 0⟩, Cell.num ⟨21, 1⟩, Cell.num ⟨2, 2⟩],
         [Cell.num ⟨30, 0⟩, Cell.num ⟨31, 1⟩, Cell.num ⟨2, 2⟩],
         [Cell.num ⟨40, 0⟩, Cell.num ⟨41, 1⟩, Cell.num ⟨2, 2⟩]]⟩ : DataFrame))]
    (by decide) (by decide) (by decide) (by decide)
